import Mathlib

/-!
Verification of the ShapeBridge repository core: the STEPGraph-IR data model
(`src/stepgraph_ir/schema.py`), the deterministic serialization codec
(`src/stepgraph_ir/serialize.py`), and the bounded session cache
(`src/shapebridge_mcp/tools.py`).

Modelling conventions:
* Python `dict`s are ordered association lists (`List (String × _)`), matching
  CPython's insertion-order semantics; key assignment on an existing key keeps
  its position, a fresh key is appended.
* JSON-like Python values (node/edge `attrs`, `provenance` values) are the
  inductive `Json` below.  JSON numbers are modelled as `Rat`.
* `orjson.dumps` emits object keys in dict insertion order and is injective on
  the values modelled here, so byte equality of an emitted record coincides
  with equality of the corresponding `Json` value.  "Byte-identical output" is
  therefore stated as equality of `Json` values.
* Python string comparison is lexicographic on Unicode code points; it is
  modelled by `strLt`/`strLe` below (`List.Lex` on the characters).  The core
  `String` order of Lean is not used because it does not reduce in the kernel.
* Python exceptions are modelled with `Except`; a raising constructor or
  method returns `Except err α`.
-/

set_option maxHeartbeats 1600000

namespace ShapeBridge

/-! ### Python string order -/

/-- Python `str` strict comparison: lexicographic on code points. -/
def strLt (a b : String) : Prop := List.Lex (· < ·) a.data b.data

instance : DecidableRel strLt := fun a b => List.Lex.decidableRel _ a.data b.data

/-- Python `str` non-strict comparison. -/
def strLe (a b : String) : Prop := ¬ strLt b a

instance : DecidableRel strLe := fun _ _ => instDecidableNot

theorem strLt_asymm {a b : String} (h : strLt a b) : ¬ strLt b a :=
  (inferInstanceAs (IsAsymm (List Char) (List.Lex (· < ·)))).asymm _ _ h

theorem strLt_trans {a b c : String} (h₁ : strLt a b) (h₂ : strLt b c) : strLt a c :=
  (inferInstanceAs (IsTrans (List Char) (List.Lex (· < ·)))).trans _ _ _ h₁ h₂

theorem strLt_trichotomy (a b : String) : strLt a b ∨ a = b ∨ strLt b a := by
  rcases (inferInstanceAs
      (IsTrichotomous (List Char) (List.Lex (· < ·)))).trichotomous a.data b.data with h | h | h
  · exact Or.inl h
  · exact Or.inr (Or.inl (String.ext h))
  · exact Or.inr (Or.inr h)

theorem strLe_refl (a : String) : strLe a a := fun h => strLt_asymm h h

theorem strLe_total (a b : String) : strLe a b ∨ strLe b a := by
  by_cases h : strLt b a
  · exact Or.inr (strLt_asymm h)
  · exact Or.inl h

theorem strLe_trans {a b c : String} (h₁ : strLe a b) (h₂ : strLe b c) : strLe a c := by
  intro hca
  rcases strLt_trichotomy b c with h | h | h
  · exact h₁ (strLt_trans h hca)
  · exact h₁ (h ▸ hca)
  · exact h₂ h

theorem strLe_antisymm {a b : String} (h₁ : strLe a b) (h₂ : strLe b a) : a = b := by
  rcases strLt_trichotomy a b with h | h | h
  · exact absurd h h₂
  · exact h
  · exact absurd h h₁

theorem strLt_of_strLe_of_ne {a b : String} (h : strLe a b) (hne : a ≠ b) : strLt a b := by
  rcases strLt_trichotomy a b with h' | h' | h'
  · exact h'
  · exact absurd h' hne
  · exact absurd h' h

/-! ### JSON-like values

Model of the "arbitrary JSON-like value" payload that populates node/edge
`attrs` and IR `provenance` in the Python source. -/

inductive Json where
  | null : Json
  | bool (b : Bool) : Json
  | num (q : Rat) : Json
  | str (s : String) : Json
  | arr (elems : List Json) : Json
  | obj (fields : List (String × Json)) : Json

mutual

def jsonBeq (x y : Json) : Bool :=
  match x, y with
  | .null, .null => true
  | .bool p, .bool q => p == q
  | .num p, .num q => p == q
  | .str p, .str q => p == q
  | .arr ps, .arr qs => jsonListBeq ps qs
  | .obj ps, .obj qs => jsonFieldsBeq ps qs
  | _, _ => false

def jsonListBeq (xs ys : List Json) : Bool :=
  match xs, ys with
  | [], [] => true
  | hd₁ :: tl₁, hd₂ :: tl₂ => jsonBeq hd₁ hd₂ && jsonListBeq tl₁ tl₂
  | _, _ => false

def jsonFieldsBeq (xs ys : List (String × Json)) : Bool :=
  match xs, ys with
  | [], [] => true
  | (ka, va) :: tl₁, (kb, vb) :: tl₂ => ka == kb && jsonBeq va vb && jsonFieldsBeq tl₁ tl₂
  | _, _ => false

end

/-- Induction principle for `Json` giving hypotheses on the members of the
nested lists. -/
theorem jsonInd {P : Json → Prop}
    (hnull : P .null) (hbool : ∀ b, P (.bool b)) (hnum : ∀ q, P (.num q))
    (hstr : ∀ s, P (.str s))
    (harr : ∀ elems, (∀ j ∈ elems, P j) → P (.arr elems))
    (hobj : ∀ fields, (∀ k v, (k, v) ∈ fields → P v) → P (.obj fields)) :
    ∀ j, P j
  | .null => hnull
  | .bool b => hbool b
  | .num q => hnum q
  | .str s => hstr s
  | .arr elems => harr elems (fun j hj =>
      have : sizeOf j < 1 + sizeOf elems := by
        have := List.sizeOf_lt_of_mem hj
        omega
      jsonInd hnull hbool hnum hstr harr hobj j)
  | .obj fields => hobj fields (fun k v hv =>
      have : sizeOf v < 1 + sizeOf fields := by
        have h1 := List.sizeOf_lt_of_mem hv
        have h2 : sizeOf (k, v) = 1 + sizeOf k + sizeOf v := rfl
        omega
      jsonInd hnull hbool hnum hstr harr hobj v)
termination_by j => sizeOf j

theorem jsonBeq_refl : ∀ j, jsonBeq j j = true := by
  intro j
  induction j using jsonInd with
  | hnull => rfl
  | hbool b => simp [jsonBeq]
  | hnum q => simp [jsonBeq]
  | hstr s => simp [jsonBeq]
  | harr elems ih =>
      simp only [jsonBeq]
      induction elems with
      | nil => rfl
      | cons x xs ihl =>
          simp only [jsonListBeq, Bool.and_eq_true]
          exact ⟨ih x (by simp), ihl (fun j hj => ih j (by simp [hj]))⟩
  | hobj fields ih =>
      simp only [jsonBeq]
      induction fields with
      | nil => rfl
      | cons f fs ihl =>
          obtain ⟨k, v⟩ := f
          simp only [jsonFieldsBeq, Bool.and_eq_true, beq_self_eq_true]
          exact ⟨⟨trivial, ih k v (by simp)⟩, ihl (fun k v hv => ih k v (by simp [hv]))⟩

theorem jsonBeq_sound : ∀ a b, jsonBeq a b = true → a = b := by
  intro a
  induction a using jsonInd with
  | hnull => intro b h; cases b <;> simp_all [jsonBeq]
  | hbool x => intro b h; cases b <;> simp_all [jsonBeq]
  | hnum x => intro b h; cases b <;> simp_all [jsonBeq]
  | hstr x => intro b h; cases b <;> simp_all [jsonBeq]
  | harr elems ih =>
      intro b h
      cases b with
      | arr ys =>
          simp only [jsonBeq] at h
          congr 1
          induction elems generalizing ys with
          | nil => cases ys <;> simp_all [jsonListBeq]
          | cons x xs ihl =>
              cases ys with
              | nil => simp [jsonListBeq] at h
              | cons y ys' =>
                  simp only [jsonListBeq, Bool.and_eq_true] at h
                  have hx : x = y := ih x (by simp) y h.1
                  have hxs : xs = ys' :=
                    ihl (fun j hj => ih j (by simp [hj])) ys' h.2
                  rw [hx, hxs]
      | null => simp [jsonBeq] at h
      | bool _ => simp [jsonBeq] at h
      | num _ => simp [jsonBeq] at h
      | str _ => simp [jsonBeq] at h
      | obj _ => simp [jsonBeq] at h
  | hobj fields ih =>
      intro b h
      cases b with
      | obj ys =>
          simp only [jsonBeq] at h
          congr 1
          induction fields generalizing ys with
          | nil => cases ys <;> simp_all [jsonFieldsBeq]
          | cons f fs ihl =>
              obtain ⟨k, v⟩ := f
              cases ys with
              | nil => simp [jsonFieldsBeq] at h
              | cons y ys' =>
                  obtain ⟨k', v'⟩ := y
                  simp only [jsonFieldsBeq, Bool.and_eq_true, beq_iff_eq] at h
                  have hv : v = v' := ih k v (by simp) v' h.1.2
                  have hfs : fs = ys' :=
                    ihl (fun k v hv => ih k v (by simp [hv])) ys' h.2
                  rw [h.1.1, hv, hfs]
      | null => simp [jsonBeq] at h
      | bool _ => simp [jsonBeq] at h
      | num _ => simp [jsonBeq] at h
      | str _ => simp [jsonBeq] at h
      | arr _ => simp [jsonBeq] at h

theorem jsonBeq_iff (a b : Json) : jsonBeq a b = true ↔ a = b :=
  ⟨jsonBeq_sound a b, fun h => h ▸ jsonBeq_refl a⟩

instance : DecidableEq Json := fun a b => decidable_of_iff (jsonBeq a b = true) (jsonBeq_iff a b)

/-! ### `_sort_dict_recursive` (serialize.py lines 18-25)

`sorted(obj.items())` in CPython orders the `(key, value)` pairs; since dict
keys are unique the comparison never reaches the values, so it is the
lexicographic order on the keys. -/

/-- Comparison used by `sorted(obj.items())`: order fields by key. -/
def fieldLe (a b : String × Json) : Prop := strLe a.1 b.1

instance : DecidableRel fieldLe := fun a b => inferInstanceAs (Decidable (strLe a.1 b.1))

instance : IsTotal (String × Json) fieldLe := ⟨fun a b => strLe_total a.1 b.1⟩

instance : IsTrans (String × Json) fieldLe := ⟨fun _ _ _ h₁ h₂ => strLe_trans h₁ h₂⟩

mutual

/-- `_sort_dict_recursive`: recursively sort every mapping's keys; list
elements are recursively canonicalized in place; scalars pass through. -/
def sortJsonKeys : Json → Json
  | .null => .null
  | .bool b => .bool b
  | .num q => .num q
  | .str s => .str s
  | .arr elems => .arr (sortJsonList elems)
  | .obj fields => .obj (List.insertionSort fieldLe (sortJsonFields fields))

def sortJsonList : List Json → List Json
  | [] => []
  | j :: js => sortJsonKeys j :: sortJsonList js

def sortJsonFields : List (String × Json) → List (String × Json)
  | [] => []
  | (k, v) :: fs => (k, sortJsonKeys v) :: sortJsonFields fs

end

theorem sortJsonList_eq_map (elems : List Json) : sortJsonList elems = elems.map sortJsonKeys := by
  induction elems with
  | nil => rfl
  | cons j js ih => simp [sortJsonList, ih]

theorem sortJsonFields_eq_map (fields : List (String × Json)) :
    sortJsonFields fields = fields.map (fun f => (f.1, sortJsonKeys f.2)) := by
  induction fields with
  | nil => rfl
  | cons f fs ih => obtain ⟨k, v⟩ := f; simp [sortJsonFields, ih]

theorem sortJsonFields_fst (fields : List (String × Json)) :
    (sortJsonFields fields).map Prod.fst = fields.map Prod.fst := by
  simp [sortJsonFields_eq_map]

/-- Canonicalization is idempotent (a lemma behind the round-trip law). -/
theorem sortJsonKeys_idem : ∀ j, sortJsonKeys (sortJsonKeys j) = sortJsonKeys j := by
  intro j
  induction j using jsonInd with
  | hnull => rfl
  | hbool b => rfl
  | hnum q => rfl
  | hstr s => rfl
  | harr elems ih =>
      simp only [sortJsonKeys, sortJsonList_eq_map, List.map_map]
      congr 1
      exact List.map_congr_left fun j hj => ih j hj
  | hobj fields ih =>
      simp only [sortJsonKeys]
      congr 1
      have hmap : sortJsonFields (List.insertionSort fieldLe (sortJsonFields fields)) =
          List.insertionSort fieldLe (sortJsonFields fields) := by
        rw [sortJsonFields_eq_map]
        have hid : ∀ f ∈ List.insertionSort fieldLe (sortJsonFields fields),
            (f.1, sortJsonKeys f.2) = f := by
          intro f hf
          have hf' : f ∈ sortJsonFields fields :=
            (List.perm_insertionSort fieldLe (sortJsonFields fields)).mem_iff.mp hf
          rw [sortJsonFields_eq_map] at hf'
          obtain ⟨g, hg, hfg⟩ := List.mem_map.mp hf'
          obtain ⟨k, v⟩ := g
          have hfkv : f = (k, sortJsonKeys v) := hfg.symm
          subst hfkv
          simp only [Prod.mk.injEq, true_and]
          exact ih k v hg
        calc List.map (fun f => (f.1, sortJsonKeys f.2))
              (List.insertionSort fieldLe (sortJsonFields fields))
            = List.map id (List.insertionSort fieldLe (sortJsonFields fields)) :=
              List.map_congr_left hid
          _ = List.insertionSort fieldLe (sortJsonFields fields) :=
              List.map_id _
      rw [hmap]
      exact (List.sorted_insertionSort fieldLe (sortJsonFields fields)).insertionSort_eq

/-! ### schema.py: data model

Node/edge `type` fields are `Literal[...]` annotations in the source, which
CPython does not enforce; decoded data can carry any string, and
`_node_sort_key` handles unknown types explicitly.  They are therefore
modelled as `String`. -/

/-- `SCHEMA_VERSION` (schema.py line 15). -/
def SCHEMA_VERSION : String := "0.1.0"

/-- A node in the STEPGraph-IR (schema.py `Node`). -/
structure Node where
  id : String
  type : String
  attrs : List (String × Json)
deriving DecidableEq

/-- An edge in the STEPGraph-IR (schema.py `Edge`). -/
structure Edge where
  src : String
  dst : String
  type : String
  attrs : List (String × Json)
deriving DecidableEq

/-- 3D bounding box (schema.py `BoundingBox`); coordinates are modelled as
`Rat` (the structural behaviour under scrutiny does not depend on
floating-point rounding). -/
structure BoundingBox where
  min_x : Rat
  min_y : Rat
  min_z : Rat
  max_x : Rat
  max_y : Rat
  max_z : Rat
deriving DecidableEq

/-- `BoundingBox.volume` (schema.py lines 116-119). -/
def BoundingBox.volume (b : BoundingBox) : Rat :=
  (b.max_x - b.min_x) * (b.max_y - b.min_y) * (b.max_z - b.min_z)

/-- `BoundingBox.center` (schema.py lines 121-128), exactly as written in the
source: the third component is `(min_z + min_z) / 2`. -/
def BoundingBox.center (b : BoundingBox) : Rat × Rat × Rat :=
  ((b.min_x + b.max_x) / 2, (b.min_y + b.max_y) / 2, (b.min_z + b.min_z) / 2)

/-- Validation information (schema.py `ValidationInfo`).  The dataclass
annotates `warnings`/`errors` as `List[str]`, which is what every writer in
the repository stores there. -/
structure ValidationInfo where
  schema_version : String := SCHEMA_VERSION
  created_at : String := ""
  node_count : Nat := 0
  edge_count : Nat := 0
  warnings : List String := []
  errors : List String := []
deriving DecidableEq

/-- `ValidationInfo.is_valid` (schema.py lines 142-145). -/
def ValidationInfo.is_valid (v : ValidationInfo) : Bool := v.errors.isEmpty

/-- The IR root container (schema.py `IR`), as plain data; `mkIR` below plays
the role of the dataclass constructor together with `__post_init__`. -/
structure IR where
  model_id : String
  nodes : List Node
  edges : List Edge
  units : List (String × String)
  provenance : List (String × Json)
  validation : ValidationInfo
  bounding_box : Option BoundingBox
deriving DecidableEq

/-- Model of `uuid.uuid4()`: an arbitrary fresh identifier.  Every claim below
only involves nodes with non-empty ids, so its value is never load-bearing. -/
def uuid4 : String := "00000000-0000-4000-8000-000000000000"

/-- `Node` construction, i.e. the dataclass constructor plus
`Node.__post_init__` (schema.py lines 78-85): an empty id is replaced by a
fresh uuid, and container nodes without a `name` attribute get a placeholder
name appended (CPython appends a fresh dict key at the end). -/
def mkNode (id type : String) (attrs : List (String × Json)) : Node :=
  let id := if id = "" then uuid4 else id
  let attrs :=
    if (type = "Assembly" ∨ type = "Part" ∨ type = "Product")
        ∧ attrs.all (fun f => f.1 ≠ "name") then
      attrs ++ [("name", .str ("Unnamed_" ++ type ++ "_" ++ id.take 8))]
    else attrs
  { id := id, type := type, attrs := attrs }

/-- The two `ValueError`s raised by `Edge.__post_init__`
(schema.py lines 97-102). -/
inductive EdgeErr where
  | EmptyEndpoint : EdgeErr
  | SelfLoop : EdgeErr
deriving DecidableEq

/-- The `ValueError` messages of `Edge.__post_init__`. -/
def EdgeErr.message : EdgeErr → String
  | .EmptyEndpoint => "Edge source and destination cannot be empty"
  | .SelfLoop => "Self-loops are not allowed in STEPGraph-IR"

/-- `Edge` construction, i.e. the dataclass constructor plus
`Edge.__post_init__` (schema.py lines 97-102). -/
def mkEdge (src dst type : String) (attrs : List (String × Json)) : Except EdgeErr Edge :=
  if src = "" ∨ dst = "" then .error .EmptyEndpoint
  else if src = dst then .error .SelfLoop
  else .ok { src := src, dst := dst, type := type, attrs := attrs }

/-- The advisory error strings appended by `IR._validate`
(schema.py lines 172-185): one message if node ids are not unique, then per
edge (in edge order) one message per dangling endpoint. -/
def validateErrors (nodes : List Node) (edges : List Edge) : List String :=
  let node_ids := nodes.map Node.id
  (if node_ids.dedup.length ≠ nodes.length then ["Duplicate node IDs found"] else [])
    ++ edges.flatMap (fun e =>
      (if e.src ∈ node_ids then [] else ["Edge references unknown source node: " ++ e.src])
        ++ (if e.dst ∈ node_ids then [] else
          ["Edge references unknown destination node: " ++ e.dst]))

/-- `IR` construction, i.e. the dataclass constructor plus `IR.__post_init__`
(schema.py lines 164-185): counts are recomputed from the sequences and
`_validate` appends advisory errors without raising. -/
def mkIR (model_id : String) (nodes : List Node) (edges : List Edge)
    (units : List (String × String)) (provenance : List (String × Json))
    (validation : ValidationInfo) (bounding_box : Option BoundingBox) : IR :=
  { model_id := model_id, nodes := nodes, edges := edges, units := units,
    provenance := provenance,
    validation := { validation with
      node_count := nodes.length,
      edge_count := edges.length,
      errors := validation.errors ++ validateErrors nodes edges },
    bounding_box := bounding_box }

/-- The `ValueError`s raised by the mutating API (`IR.add_node` /
`IR.add_edge`, schema.py lines 206-221). -/
inductive GraphErr where
  | DuplicateNodeId (id : String) : GraphErr
  | UnknownSourceNode (id : String) : GraphErr
  | UnknownDestinationNode (id : String) : GraphErr
deriving DecidableEq

/-- `IR.add_node` (schema.py lines 206-211).  The error case models the raise
before any mutation: the caller's IR is untouched. -/
def IR.add_node (ir : IR) (node : Node) : Except GraphErr IR :=
  if ir.nodes.any (fun existing => existing.id = node.id) then
    .error (.DuplicateNodeId node.id)
  else
    let nodes := ir.nodes ++ [node]
    .ok { ir with
          nodes := nodes,
          validation := { ir.validation with node_count := nodes.length } }

/-- `IR.add_edge` (schema.py lines 213-221): the source endpoint is checked
first, then the destination; on success the edge is appended and
`edge_count` updated.  The error case models the raise before any mutation. -/
def IR.add_edge (ir : IR) (edge : Edge) : Except GraphErr IR :=
  let node_ids := ir.nodes.map Node.id
  if edge.src ∉ node_ids then .error (.UnknownSourceNode edge.src)
  else if edge.dst ∉ node_ids then .error (.UnknownDestinationNode edge.dst)
  else
    let edges := ir.edges ++ [edge]
    .ok { ir with
          edges := edges,
          validation := { ir.validation with edge_count := edges.length } }

/-! ### serialize.py: deterministic serialization -/

/-- `_node_sort_key`'s `type_priority` table (serialize.py lines 35-53);
`dict.get(node.type, 999)` yields 999 for unrecognized types. -/
def typePriority : String → Nat
  | "Assembly" => 0
  | "Part" => 1
  | "Product" => 2
  | "ManifoldSolidBrep" => 10
  | "AdvancedFace" => 11
  | "EdgeCurve" => 12
  | "VertexPoint" => 13
  | "Unit" => 20
  | "CoordinateSystem" => 21
  | "PMI_Entity" => 30
  | "GeometricTolerance" => 31
  | "DimensioningTolerance" => 32
  | "ValidationProperty" => 40
  | "MaterialProperty" => 41
  | "SurfaceFinish" => 42
  | _ => 999

/-- `_node_sort_key` (serialize.py lines 28-54). -/
def nodeSortKey (n : Node) : Nat × String := (typePriority n.type, n.id)

/-- `_edge_sort_key` (serialize.py lines 57-59). -/
def edgeSortKey (e : Edge) : String × String × String := (e.src, e.dst, e.type)

/-- The order `sorted(nodes, key=_node_sort_key)` sorts by: lexicographic on
the `(type_priority, id)` tuples. -/
def nodeLe (a b : Node) : Prop :=
  typePriority a.type < typePriority b.type ∨
    (typePriority a.type = typePriority b.type ∧ strLe a.id b.id)

instance : DecidableRel nodeLe := fun a b =>
  inferInstanceAs (Decidable (_ ∨ _ ∧ strLe a.id b.id))

instance : IsTotal Node nodeLe := by
  refine ⟨fun a b => ?_⟩
  rcases Nat.lt_trichotomy (typePriority a.type) (typePriority b.type) with h | h | h
  · exact Or.inl (Or.inl h)
  · rcases strLe_total a.id b.id with h' | h'
    · exact Or.inl (Or.inr ⟨h, h'⟩)
    · exact Or.inr (Or.inr ⟨h.symm, h'⟩)
  · exact Or.inr (Or.inl h)

instance : IsTrans Node nodeLe := by
  refine ⟨fun a b c h₁ h₂ => ?_⟩
  rcases h₁ with h₁ | ⟨h₁, h₁'⟩ <;> rcases h₂ with h₂ | ⟨h₂, h₂'⟩
  · exact Or.inl (h₁.trans h₂)
  · exact Or.inl (h₂ ▸ h₁)
  · exact Or.inl (h₁ ▸ h₂)
  · exact Or.inr ⟨h₁.trans h₂, strLe_trans h₁' h₂'⟩

theorem nodeLe_antisymm_key {a b : Node} (h₁ : nodeLe a b) (h₂ : nodeLe b a) :
    typePriority a.type = typePriority b.type ∧ a.id = b.id := by
  rcases h₁ with h₁ | ⟨h₁, h₁'⟩ <;> rcases h₂ with h₂ | ⟨h₂, h₂'⟩
  · exact absurd h₂ (Nat.lt_asymm h₁)
  · exact absurd h₁ (h₂ ▸ lt_irrefl _)
  · exact absurd h₂ (h₁ ▸ lt_irrefl _)
  · exact ⟨h₁, strLe_antisymm h₁' h₂'⟩

/-- The order `sorted(edges, key=_edge_sort_key)` sorts by: lexicographic on
the `(src, dst, type)` tuples. -/
def edgeLe (a b : Edge) : Prop :=
  strLt a.src b.src ∨
    (a.src = b.src ∧ (strLt a.dst b.dst ∨ (a.dst = b.dst ∧ strLe a.type b.type)))

instance : DecidableRel edgeLe := fun a b =>
  inferInstanceAs (Decidable (strLt a.src b.src ∨ _ ∧ (strLt a.dst b.dst ∨ _ ∧ strLe a.type b.type)))

instance : IsTotal Edge edgeLe := by
  refine ⟨fun a b => ?_⟩
  rcases strLt_trichotomy a.src b.src with h | h | h
  · exact Or.inl (Or.inl h)
  · rcases strLt_trichotomy a.dst b.dst with h' | h' | h'
    · exact Or.inl (Or.inr ⟨h, Or.inl h'⟩)
    · rcases strLe_total a.type b.type with h'' | h''
      · exact Or.inl (Or.inr ⟨h, Or.inr ⟨h', h''⟩⟩)
      · exact Or.inr (Or.inr ⟨h.symm, Or.inr ⟨h'.symm, h''⟩⟩)
    · exact Or.inr (Or.inr ⟨h.symm, Or.inl h'⟩)
  · exact Or.inr (Or.inl h)

instance : IsTrans Edge edgeLe := by
  refine ⟨fun a b c h₁ h₂ => ?_⟩
  rcases h₁ with h₁ | ⟨hs₁, h₁⟩
  · rcases h₂ with h₂ | ⟨hs₂, h₂⟩
    · exact Or.inl (strLt_trans h₁ h₂)
    · exact Or.inl (hs₂ ▸ h₁)
  · rcases h₂ with h₂ | ⟨hs₂, h₂⟩
    · exact Or.inl (hs₁ ▸ h₂)
    · refine Or.inr ⟨hs₁.trans hs₂, ?_⟩
      rcases h₁ with h₁ | ⟨hd₁, h₁⟩
      · rcases h₂ with h₂ | ⟨hd₂, h₂⟩
        · exact Or.inl (strLt_trans h₁ h₂)
        · exact Or.inl (hd₂ ▸ h₁)
      · rcases h₂ with h₂ | ⟨hd₂, h₂⟩
        · exact Or.inl (hd₁ ▸ h₂)
        · exact Or.inr ⟨hd₁.trans hd₂, strLe_trans h₁ h₂⟩

theorem edgeLe_antisymm_key {a b : Edge} (h₁ : edgeLe a b) (h₂ : edgeLe b a) :
    a.src = b.src ∧ a.dst = b.dst ∧ a.type = b.type := by
  rcases h₁ with h₁ | ⟨hs₁, h₁⟩
  · rcases h₂ with h₂ | ⟨hs₂, h₂⟩
    · exact absurd h₂ (strLt_asymm h₁)
    · exact absurd h₁ (hs₂ ▸ fun h => strLt_asymm h h)
  · rcases h₂ with h₂ | ⟨hs₂, h₂⟩
    · exact absurd h₂ (hs₁ ▸ fun h => strLt_asymm h h)
    · refine ⟨hs₁, ?_⟩
      rcases h₁ with h₁ | ⟨hd₁, h₁⟩
      · rcases h₂ with h₂ | ⟨hd₂, h₂⟩
        · exact absurd h₂ (strLt_asymm h₁)
        · exact absurd h₁ (hd₂ ▸ fun h => strLt_asymm h h)
      · rcases h₂ with h₂ | ⟨hd₂, h₂⟩
        · exact absurd h₂ (hd₁ ▸ fun h => strLt_asymm h h)
        · exact ⟨hd₁, strLe_antisymm h₁ h₂⟩

/-- The per-node dictionary built by `to_json_dict` (serialize.py lines
81-88). -/
def nodeToJson (deterministic : Bool) (n : Node) : Json :=
  .obj [("id", .str n.id), ("type", .str n.type),
        ("attrs", if deterministic then sortJsonKeys (.obj n.attrs) else .obj n.attrs)]

/-- The per-edge dictionary built by `to_json_dict` (serialize.py lines
90-98). -/
def edgeToJson (deterministic : Bool) (e : Edge) : Json :=
  .obj [("src", .str e.src), ("dst", .str e.dst), ("type", .str e.type),
        ("attrs", if deterministic then sortJsonKeys (.obj e.attrs) else .obj e.attrs)]

/-- The bounding-box block of `to_json_dict` (serialize.py lines 119-127). -/
def bboxToJson (b : BoundingBox) : Json :=
  .obj [("min_x", .num b.min_x), ("min_y", .num b.min_y), ("min_z", .num b.min_z),
        ("max_x", .num b.max_x), ("max_y", .num b.max_y), ("max_z", .num b.max_z)]

/-- `to_json_dict` (serialize.py lines 62-129).  The resulting `Json.obj`
lists keys in the dict insertion order of the source, which is the key order
`orjson.dumps` emits. -/
def to_json_dict (ir : IR) (deterministic : Bool) : Json :=
  let nodes := if deterministic then List.insertionSort nodeLe ir.nodes else ir.nodes
  let edges := if deterministic then List.insertionSort edgeLe ir.edges else ir.edges
  let unitsJson : Json := .obj (ir.units.map (fun p => (p.1, Json.str p.2)))
  .obj ([("schema_version", .str ir.validation.schema_version),
        ("model_id", .str ir.model_id),
        ("validation", .obj
          [("created_at", .str ir.validation.created_at),
           ("node_count", .num ir.validation.node_count),
           ("edge_count", .num ir.validation.edge_count),
           ("is_valid", .bool ir.validation.is_valid),
           ("warnings", .arr (ir.validation.warnings.map .str)),
           ("errors", .arr (ir.validation.errors.map .str))]),
        ("units", if deterministic then sortJsonKeys unitsJson else unitsJson),
        ("nodes", .arr (nodes.map (nodeToJson deterministic))),
        ("edges", .arr (edges.map (edgeToJson deterministic))),
        ("provenance",
          if deterministic then sortJsonKeys (.obj ir.provenance) else .obj ir.provenance)]
    ++ (match ir.bounding_box with
        | some b => [("bounding_box", bboxToJson b)]
        | none => []))

/-- Failures of `_dict_to_ir` / `load_jsonl`.  `valueErr` is the `ValueError`
raised by `Edge.__post_init__`, which `load_jsonl` catches and wraps;
`keyErr` models a `KeyError` from a missing required key and `typeErr` a
`TypeError` from wrongly-shaped data, neither of which `load_jsonl`
catches. -/
inductive DecodeErr where
  | keyErr (key : String) : DecodeErr
  | typeErr (what : String) : DecodeErr
  | valueErr (e : EdgeErr) : DecodeErr
deriving DecidableEq

/-- Dictionary lookup (`data[k]` / `data.get(k)`). -/
def jLookup (fields : List (String × Json)) (k : String) : Option Json :=
  (fields.find? (fun f => f.1 = k)).map Prod.snd

/-- `data.get(k, default)`. -/
def jGetD (fields : List (String × Json)) (k : String) (d : Json) : Json :=
  (jLookup fields k).getD d

/-- `data[k]`: raises `KeyError` when missing. -/
def reqKey (fields : List (String × Json)) (k : String) : Except DecodeErr Json :=
  match jLookup fields k with
  | some v => .ok v
  | none => .error (.keyErr k)

def reqStr (j : Json) (what : String) : Except DecodeErr String :=
  match j with
  | .str s => .ok s
  | _ => .error (.typeErr what)

def reqObj (j : Json) (what : String) : Except DecodeErr (List (String × Json)) :=
  match j with
  | .obj fields => .ok fields
  | _ => .error (.typeErr what)

def reqArr (j : Json) (what : String) : Except DecodeErr (List Json) :=
  match j with
  | .arr elems => .ok elems
  | _ => .error (.typeErr what)

def reqNum (j : Json) (what : String) : Except DecodeErr Rat :=
  match j with
  | .num q => .ok q
  | _ => .error (.typeErr what)

/-- Loose extraction of a string: the Python code stores the parsed value
unchecked; the model narrows to the string type the dataclass declares. -/
def asStrD (j : Json) (d : String) : String :=
  match j with
  | .str s => s
  | _ => d

/-- Loose extraction of a count; the value is immediately recomputed by
`IR.__post_init__`, so the conversion is never observable. -/
def asNatD (j : Json) : Nat :=
  match j with
  | .num q => q.num.toNat
  | _ => 0

/-- Loose extraction of a string list (`warnings` / `errors`). -/
def asStrList (j : Json) : List String :=
  match j with
  | .arr elems => elems.filterMap (fun x => match x with | .str s => some s | _ => none)
  | _ => []

/-- Loose extraction of a string-to-string mapping (`units`). -/
def asStrPairs (j : Json) : List (String × String) :=
  match j with
  | .obj fields =>
      fields.filterMap (fun f => match f.2 with | .str s => some (f.1, s) | _ => none)
  | _ => []

/-- Node reconstruction inside `_dict_to_ir` (serialize.py lines 217-225). -/
def nodeOfJson (j : Json) : Except DecodeErr Node := do
  let fields ← reqObj j "node record"
  let id ← reqStr (← reqKey fields "id") "node id"
  let type ← reqStr (← reqKey fields "type") "node type"
  let attrs ← reqObj (jGetD fields "attrs" (.obj [])) "node attrs"
  pure (mkNode id type attrs)

/-- Edge reconstruction inside `_dict_to_ir` (serialize.py lines 227-236):
`Edge(...)` runs `Edge.__post_init__`, whose `ValueError` propagates. -/
def edgeOfJson (j : Json) : Except DecodeErr Edge := do
  let fields ← reqObj j "edge record"
  let src ← reqStr (← reqKey fields "src") "edge src"
  let dst ← reqStr (← reqKey fields "dst") "edge dst"
  let type ← reqStr (← reqKey fields "type") "edge type"
  let attrs ← reqObj (jGetD fields "attrs" (.obj [])) "edge attrs"
  match mkEdge src dst type attrs with
  | .ok e => pure e
  | .error er => throw (.valueErr er)

/-- Bounding-box reconstruction inside `_dict_to_ir` (serialize.py lines
239-249); the six keys are accessed with `[]`, so a missing key is a
`KeyError`. -/
def bboxOfJson (j : Json) : Except DecodeErr BoundingBox := do
  let fields ← reqObj j "bounding_box"
  let min_x ← reqNum (← reqKey fields "min_x") "min_x"
  let min_y ← reqNum (← reqKey fields "min_y") "min_y"
  let min_z ← reqNum (← reqKey fields "min_z") "min_z"
  let max_x ← reqNum (← reqKey fields "max_x") "max_x"
  let max_y ← reqNum (← reqKey fields "max_y") "max_y"
  let max_z ← reqNum (← reqKey fields "max_z") "max_z"
  pure { min_x := min_x, min_y := min_y, min_z := min_z,
         max_x := max_x, max_y := max_y, max_z := max_z }

/-- `_dict_to_ir` (serialize.py lines 202-262).  Note that the validation
block is read from `data["validation"]`, which `to_json_dict` writes without
a `schema_version` key, so decoding always falls back to the `"0.1.0"`
default there.  The final `mkIR` re-runs `IR.__post_init__` exactly as the
`IR(...)` call in the source does. -/
def dict_to_ir (j : Json) : Except DecodeErr IR := do
  let data ← reqObj j "record"
  let valFields ← reqObj (jGetD data "validation" (.obj [])) "validation"
  let validation : ValidationInfo :=
    { schema_version := asStrD (jGetD valFields "schema_version" (.str "0.1.0")) "0.1.0",
      created_at := asStrD (jGetD valFields "created_at" (.str "")) "",
      node_count := asNatD (jGetD valFields "node_count" (.num 0)),
      edge_count := asNatD (jGetD valFields "edge_count" (.num 0)),
      warnings := asStrList (jGetD valFields "warnings" (.arr [])),
      errors := asStrList (jGetD valFields "errors" (.arr [])) }
  let nodesJson ← reqArr (jGetD data "nodes" (.arr [])) "nodes"
  let nodes ← nodesJson.mapM nodeOfJson
  let edgesJson ← reqArr (jGetD data "edges" (.arr [])) "edges"
  let edges ← edgesJson.mapM edgeOfJson
  let bbox ← match jLookup data "bounding_box" with
    | some bj => do
        let b ← bboxOfJson bj
        pure (some b)
    | none => pure none
  let model_id ← reqStr (← reqKey data "model_id") "model_id"
  let units := asStrPairs (jGetD data "units"
    (.obj [("length", .str "mm"), ("angle", .str "deg")]))
  let provenance := match jGetD data "provenance" (.obj []) with
    | .obj fs => fs
    | _ => []
  pure (mkIR model_id nodes edges units provenance validation bbox)

/-- Codec-level failure surfaced by `load_jsonl` (serialize.py lines
188-199): a `ValueError` during record reconstruction is re-raised as
`Failed to parse line N`; other exceptions propagate unchanged. -/
inductive LoadErr where
  | parseFailed (line : Nat) (cause : String) : LoadErr
  | uncaught (e : DecodeErr) : LoadErr
deriving DecidableEq

/-- Decoding of one line by `load_jsonl` (serialize.py lines 188-199). -/
def load_jsonl_line (line_num : Nat) (j : Json) : Except LoadErr IR :=
  match dict_to_ir j with
  | .ok ir => .ok ir
  | .error (.valueErr e) => .error (.parseFailed line_num e.message)
  | .error e => .error (.uncaught e)

/-! ### tools.py: session cache

Python dict semantics: assignment to an existing key updates the value in
place (keeping its position); a fresh key is appended.  `time.time()` is
modelled by a logical `Nat` timestamp passed by the caller; `sorted` with
`key=lambda x: x[1]` is a stable sort on the timestamps. -/

/-- Opaque geometry handle returned by the ingestion collaborator
(`kernel.occt_io.LoadedModel`); only its `model_id` is consulted by the
session logic. -/
structure LoadedModel where
  model_id : String
deriving DecidableEq

/-- `kernel.summary.GeometrySummary` (summary.py lines 19-52). -/
structure GeometrySummary where
  model_id : String
  units : List (String × String)
  solids : Nat := 0
  shells : Nat := 0
  faces : Nat := 0
  edges : Nat := 0
  vertices : Nat := 0
  bounding_box : Option (List (String × Rat)) := none
  surface_area : Option Rat := none
  volume : Option Rat := none
  has_pmi : Bool := false
  has_assemblies : Bool := false
  has_curves : Bool := false
  has_surfaces : Bool := false
  file_size : Nat := 0
  occt_binding : String := ""
  analysis_warnings : List String := []
deriving DecidableEq

/-- `create_placeholder_summary` (summary.py lines 567-581). -/
def create_placeholder_summary (model_id error_message : String) : GeometrySummary :=
  { model_id := model_id,
    units := [("length", "unknown"), ("angle", "unknown")],
    analysis_warnings := ["Analysis failed: " ++ error_message] }

/-- Assignment `d[k] = v` on a Python dict. -/
def dictSet {α : Type} (d : List (String × α)) (k : String) (v : α) : List (String × α) :=
  if d.any (fun p => p.1 = k) then
    d.map (fun p => if p.1 = k then (k, v) else p)
  else d ++ [(k, v)]

/-- Deletion `del d[k]` (guarded by a membership test in the source, so an
absent key is a no-op). -/
def dictDel {α : Type} (d : List (String × α)) (k : String) : List (String × α) :=
  d.filter (fun p => p.1 ≠ k)

/-- Lookup `d.get(k)`. -/
def dictGet {α : Type} (d : List (String × α)) (k : String) : Option α :=
  (d.find? (fun p => p.1 = k)).map Prod.snd

/-- The Python slice `l[:-k]`: for `k = 0` it is `l[:0] = []`, otherwise all
but the last `k` elements. -/
def pySliceDropLast {α : Type} (l : List α) (k : Nat) : List α :=
  if k = 0 then [] else l.take (l.length - k)

/-- `ShapeBridgeSession` state (tools.py lines 31-45). -/
structure ShapeBridgeSession where
  models : List (String × LoadedModel)
  summaries : List (String × GeometrySummary)
  max_models : Nat
  load_times : List (String × Nat)
deriving DecidableEq

/-- `ShapeBridgeSession.__init__` (tools.py lines 34-45); `max_models`
defaults to 10. -/
def ShapeBridgeSession.init (max_models : Nat := 10) : ShapeBridgeSession :=
  { models := [], summaries := [], max_models := max_models, load_times := [] }

/-- `ShapeBridgeSession.remove_model` (tools.py lines 59-69). -/
def ShapeBridgeSession.remove_model (s : ShapeBridgeSession) (model_id : String) :
    ShapeBridgeSession :=
  { s with
    models := dictDel s.models model_id,
    summaries := dictDel s.summaries model_id,
    load_times := dictDel s.load_times model_id }

/-- The stable comparison used by
`sorted(self._load_times.items(), key=lambda x: x[1])`. -/
def timeLe (a b : String × Nat) : Prop := a.2 ≤ b.2

instance : DecidableRel timeLe := fun a b => inferInstanceAs (Decidable (a.2 ≤ b.2))

instance : IsTotal (String × Nat) timeLe := ⟨fun a b => Nat.le_total a.2 b.2⟩

instance : IsTrans (String × Nat) timeLe := ⟨fun _ _ _ h₁ h₂ => Nat.le_trans h₁ h₂⟩

/-- `ShapeBridgeSession.cleanup_old_models` (tools.py lines 47-57). -/
def ShapeBridgeSession.cleanup_old_models (s : ShapeBridgeSession) : ShapeBridgeSession :=
  if s.models.length ≤ s.max_models then s
  else
    let sorted_models := List.insertionSort timeLe s.load_times
    let models_to_remove := pySliceDropLast sorted_models s.max_models
    models_to_remove.foldl (fun acc p => acc.remove_model p.1) s

/-- `ShapeBridgeSession.has_model` (tools.py lines 71-73). -/
def ShapeBridgeSession.has_model (s : ShapeBridgeSession) (model_id : String) : Bool :=
  s.models.any (fun p => p.1 = model_id)

/-- The state transition of a successful `ShapeBridgeSession.load_model`
(tools.py lines 107-128): `load_step` is the ingestion collaborator, its
result `m` and the clock reading `t` are inputs; the handle is stored under
its model id, the load time recorded, then eviction runs.  On a load failure
the `except` branch re-raises without storing, so the state is unchanged and
no transition is modelled. -/
def ShapeBridgeSession.load_model_store (s : ShapeBridgeSession) (m : LoadedModel)
    (t : Nat) : ShapeBridgeSession :=
  ShapeBridgeSession.cleanup_old_models
    { s with
      models := dictSet s.models m.model_id m,
      load_times := dictSet s.load_times m.model_id t }

/-- `ShapeBridgeSession.generate_summary` (tools.py lines 134-173).  The
summarizer collaborator `summarize_shape` is a parameter; a `.error` result
models an exception escaping it.  The `SessionError` for an absent model is
the outer `.error`; a summarizer failure is absorbed into a cached
placeholder summary. -/
def ShapeBridgeSession.generate_summary
    (summarize_shape : LoadedModel → Except String GeometrySummary)
    (s : ShapeBridgeSession) (model_id : String) :
    Except String (ShapeBridgeSession × GeometrySummary) :=
  match dictGet s.models model_id with
  | none => .error ("Model not found in session: " ++ model_id)
  | some loaded_model =>
      match summarize_shape loaded_model with
      | .ok summary =>
          .ok ({ s with summaries := dictSet s.summaries model_id summary }, summary)
      | .error e =>
          let summary := create_placeholder_summary model_id e
          .ok ({ s with summaries := dictSet s.summaries model_id summary }, summary)

/-! ## Helper lemmas about dictionaries and batch removal -/

theorem filter_ne_filter_not_mem {α : Type} (l : List (String × α)) (k : String)
    (ks : List String) :
    (l.filter (fun p => p.1 ≠ k)).filter (fun q => q.1 ∉ ks) =
      l.filter (fun q => q.1 ∉ k :: ks) := by
  rw [List.filter_filter]
  apply List.filter_congr
  intro a _
  by_cases h1 : a.1 = k <;> by_cases h2 : a.1 ∈ ks <;> simp [h1, h2]

theorem filter_not_mem_filter_ne {α : Type} (l : List (String × α)) (k : String)
    (ks : List String) :
    (l.filter (fun q => q.1 ∉ ks)).filter (fun p => p.1 ≠ k) =
      l.filter (fun q => q.1 ∉ k :: ks) := by
  rw [List.filter_filter]
  apply List.filter_congr
  intro a _
  by_cases h1 : a.1 = k <;> by_cases h2 : a.1 ∈ ks <;> simp [h1, h2]

theorem foldl_remove_model (ids : List String) (s : ShapeBridgeSession) :
    ids.foldl ShapeBridgeSession.remove_model s =
      { models := s.models.filter (fun q => q.1 ∉ ids),
        summaries := s.summaries.filter (fun q => q.1 ∉ ids),
        max_models := s.max_models,
        load_times := s.load_times.filter (fun q => q.1 ∉ ids) } := by
  induction ids generalizing s with
  | nil => simp
  | cons k ks ih =>
      rw [List.foldl_cons, ih]
      simp only [ShapeBridgeSession.remove_model, dictDel]
      rw [filter_ne_filter_not_mem, filter_ne_filter_not_mem, filter_ne_filter_not_mem]

theorem length_filter_key_ne {α : Type} (l : List (String × α)) (k : String)
    (hnd : (l.map Prod.fst).Nodup) (hk : k ∈ l.map Prod.fst) :
    (l.filter (fun q => q.1 ≠ k)).length = l.length - 1 := by
  induction l with
  | nil => simp at hk
  | cons a as ih =>
      simp only [List.map_cons, List.nodup_cons] at hnd
      by_cases ha : a.1 = k
      · have htail : ∀ b ∈ as, (decide (b.1 ≠ k) : Bool) = true := by
          intro b hb
          simp only [decide_eq_true_eq]
          intro hbk
          apply hnd.1
          rw [ha, ← hbk]
          exact List.mem_map_of_mem Prod.fst hb
        rw [List.filter_cons_of_neg (by simp [ha])]
        rw [List.filter_eq_self.mpr htail]
        simp
      · have hk' : k ∈ as.map Prod.fst := by
          rcases List.mem_map.mp hk with ⟨p, hp, hpk⟩
          rcases List.mem_cons.mp hp with rfl | hp'
          · exact absurd hpk ha
          · exact hpk ▸ List.mem_map_of_mem Prod.fst hp'
        have hlen : 0 < as.length := by
          cases as
          · simp at hk'
          · simp
        rw [List.filter_cons_of_pos (by simp [ha])]
        simp only [List.length_cons, ih hnd.2 hk']
        omega

theorem length_filter_key_not_mem {α : Type} (l : List (String × α)) (ids : List String)
    (hnd : (l.map Prod.fst).Nodup) (hids : ids.Nodup)
    (hsub : ∀ k ∈ ids, k ∈ l.map Prod.fst) :
    (l.filter (fun q => q.1 ∉ ids)).length = l.length - ids.length := by
  induction ids with
  | nil => simp
  | cons k ks ih =>
      have hks : (l.filter (fun q => q.1 ∉ ks)).length = l.length - ks.length :=
        ih (List.nodup_cons.mp hids).2 (fun k' hk' => hsub k' (List.mem_cons_of_mem _ hk'))
      rw [← filter_not_mem_filter_ne]
      have hnd' : ((l.filter (fun q => q.1 ∉ ks)).map Prod.fst).Nodup :=
        ((List.filter_sublist l).map Prod.fst).nodup hnd
      have hkmem : k ∈ (l.filter (fun q => q.1 ∉ ks)).map Prod.fst := by
        rcases List.mem_map.mp (hsub k (List.mem_cons_self k ks)) with ⟨p, hp, hpk⟩
        refine hpk ▸ List.mem_map_of_mem Prod.fst (List.mem_filter.mpr ⟨hp, ?_⟩)
        simp only [decide_eq_true_eq]
        exact hpk ▸ (List.nodup_cons.mp hids).1
      rw [length_filter_key_ne _ k hnd' hkmem, hks]
      simp only [List.length_cons]
      omega

/-- `cleanup_old_models` is the identity on a session whose capacity is zero:
the removal slice `sorted_models[:-0]` is `sorted_models[:0] = []`. -/
theorem cleanup_old_models_max_zero (s : ShapeBridgeSession) (h : s.max_models = 0) :
    s.cleanup_old_models = s := by
  unfold ShapeBridgeSession.cleanup_old_models
  split
  · rfl
  · simp [pySliceDropLast, h]

/-! ## Claim C6: eviction -/

/-- C6 counterexample: the claim says that whenever the stored-entry count
exceeds `max_models`, eviction removes entries until exactly `max_models`
remain.  With `max_models = 0` and one stored model the slice
`sorted_models[:-0]` is empty, nothing is removed, and one entry remains. -/
theorem eviction_policy_counterexample :
    (ShapeBridgeSession.mk [("m0", ⟨"m0"⟩)] [] 0 [("m0", 0)]).max_models <
      (ShapeBridgeSession.mk [("m0", ⟨"m0"⟩)] [] 0 [("m0", 0)]).models.length ∧
    (ShapeBridgeSession.mk [("m0", ⟨"m0"⟩)] [] 0
        [("m0", 0)]).cleanup_old_models.models.length ≠
      (ShapeBridgeSession.mk [("m0", ⟨"m0"⟩)] [] 0 [("m0", 0)]).max_models := by
  refine ⟨by decide, ?_⟩
  rw [cleanup_old_models_max_zero _ rfl]
  decide

/-- C6 (amended with `1 ≤ max_models`; `max_models = 0` is the C10 defect):
for a session whose model keys and load-time keys agree and are duplicate
free, `cleanup_old_models` is a no-op when the stored-entry count is at most
`max_models`; otherwise (given `1 ≤ max_models`) it removes exactly the
entries whose ids form the ascending-load-timestamp prefix of the store,
leaving exactly `max_models` entries, and every evicted entry has a load
timestamp at most that of every survivor.  In particular (witness) a session
with `max_models = 2` holding `m0, m1, m2` loaded at times 0, 1, 2 retains
exactly `m1, m2` and `m0` is absent. -/
theorem eviction_policy (s : ShapeBridgeSession)
    (hkeys : s.models.map Prod.fst = s.load_times.map Prod.fst)
    (hnd : (s.models.map Prod.fst).Nodup) :
    (s.models.length ≤ s.max_models → s.cleanup_old_models = s) ∧
    (1 ≤ s.max_models → s.max_models < s.models.length →
      s.cleanup_old_models.models =
        s.models.filter (fun q => q.1 ∉
          (pySliceDropLast (List.insertionSort timeLe s.load_times) s.max_models).map
            Prod.fst) ∧
      s.cleanup_old_models.models.length = s.max_models ∧
      (∀ p ∈ pySliceDropLast (List.insertionSort timeLe s.load_times) s.max_models,
        ∀ q ∈ s.load_times,
          q.1 ∉ (pySliceDropLast (List.insertionSort timeLe s.load_times) s.max_models).map
            Prod.fst →
          p.2 ≤ q.2)) := by
  constructor
  · intro hle
    unfold ShapeBridgeSession.cleanup_old_models
    rw [if_pos hle]
  · intro hmax hlt
    have hperm : List.Perm (List.insertionSort timeLe s.load_times) s.load_times :=
      List.perm_insertionSort timeLe s.load_times
    have hlen_eq : s.load_times.length = s.models.length := by
      have := congrArg List.length hkeys
      simpa using this.symm
    have hsorted_len : (List.insertionSort timeLe s.load_times).length = s.models.length := by
      rw [hperm.length_eq, hlen_eq]
    have hslice : pySliceDropLast (List.insertionSort timeLe s.load_times) s.max_models =
        (List.insertionSort timeLe s.load_times).take
          ((List.insertionSort timeLe s.load_times).length - s.max_models) := by
      unfold pySliceDropLast
      rw [if_neg (by omega)]
    have hcleanup : s.cleanup_old_models =
        ((pySliceDropLast (List.insertionSort timeLe s.load_times) s.max_models).map
          Prod.fst).foldl ShapeBridgeSession.remove_model s := by
      unfold ShapeBridgeSession.cleanup_old_models
      rw [if_neg (by omega)]
      exact (List.foldl_map Prod.fst ShapeBridgeSession.remove_model _ s).symm
    have hids_nodup :
        ((pySliceDropLast (List.insertionSort timeLe s.load_times) s.max_models).map
          Prod.fst).Nodup := by
      rw [hslice]
      have hnd_lt : (s.load_times.map Prod.fst).Nodup := hkeys ▸ hnd
      have hnd_sorted : ((List.insertionSort timeLe s.load_times).map Prod.fst).Nodup :=
        ((hperm.map Prod.fst).nodup_iff).mpr hnd_lt
      exact ((List.take_sublist _ _).map Prod.fst).nodup hnd_sorted
    have hids_sub :
        ∀ k ∈ (pySliceDropLast (List.insertionSort timeLe s.load_times) s.max_models).map
          Prod.fst, k ∈ s.models.map Prod.fst := by
      intro k hk
      rw [hslice] at hk
      rcases List.mem_map.mp hk with ⟨p, hp, hpk⟩
      have hp' : p ∈ s.load_times := hperm.mem_iff.mp ((List.take_sublist _ _).mem hp)
      rw [hkeys]
      exact hpk ▸ List.mem_map_of_mem Prod.fst hp'
    have hids_len :
        ((pySliceDropLast (List.insertionSort timeLe s.load_times) s.max_models).map
          Prod.fst).length = s.models.length - s.max_models := by
      rw [hslice, List.length_map, List.length_take, hsorted_len]
      omega
    have hmodels : s.cleanup_old_models.models =
        s.models.filter (fun q => q.1 ∉
          (pySliceDropLast (List.insertionSort timeLe s.load_times) s.max_models).map
            Prod.fst) := by
      rw [hcleanup, foldl_remove_model]
    refine ⟨hmodels, ?_, ?_⟩
    · rw [hmodels, length_filter_key_not_mem _ _ hnd hids_nodup hids_sub, hids_len]
      omega
    · intro p hp q hq hqid
      have hsplit := List.take_append_drop
        ((List.insertionSort timeLe s.load_times).length - s.max_models)
        (List.insertionSort timeLe s.load_times)
      have hsorted : List.Sorted timeLe (List.insertionSort timeLe s.load_times) :=
        List.sorted_insertionSort timeLe s.load_times
      rw [← hsplit] at hsorted
      have hcross := (List.pairwise_append.mp hsorted).2.2
      have hq_sorted : q ∈ List.insertionSort timeLe s.load_times := hperm.mem_iff.mpr hq
      have hq_drop : q ∈ (List.insertionSort timeLe s.load_times).drop
          ((List.insertionSort timeLe s.load_times).length - s.max_models) := by
        rcases List.mem_append.mp (hsplit ▸ hq_sorted) with hq_take | hq_drop
        · exact absurd (List.mem_map_of_mem Prod.fst (hslice ▸ hq_take : q ∈ _)) hqid
        · exact hq_drop
      have hp_take : p ∈ (List.insertionSort timeLe s.load_times).take
          ((List.insertionSort timeLe s.load_times).length - s.max_models) := hslice ▸ hp
      exact hcross p hp_take q hq_drop

/-- Witness for C6 at the scenario from the claim: `max_models = 2`, models
`m0, m1, m2` loaded at timestamps 0, 1, 2; after eviction exactly two entries
remain, namely `m1` and `m2`, and `m0` is absent. -/
theorem eviction_policy_witness :
    (ShapeBridgeSession.mk [("m0", ⟨"m0"⟩), ("m1", ⟨"m1"⟩), ("m2", ⟨"m2"⟩)] [] 2
        [("m0", 0), ("m1", 1), ("m2", 2)]).cleanup_old_models.models.length = 2 ∧
    (ShapeBridgeSession.mk [("m0", ⟨"m0"⟩), ("m1", ⟨"m1"⟩), ("m2", ⟨"m2"⟩)] [] 2
        [("m0", 0), ("m1", 1), ("m2", 2)]).cleanup_old_models.models.map Prod.fst =
      ["m1", "m2"] ∧
    (ShapeBridgeSession.mk [("m0", ⟨"m0"⟩), ("m1", ⟨"m1"⟩), ("m2", ⟨"m2"⟩)] [] 2
        [("m0", 0), ("m1", 1), ("m2", 2)]).cleanup_old_models.has_model "m0" = false :=
  ⟨((eviction_policy
      (ShapeBridgeSession.mk [("m0", ⟨"m0"⟩), ("m1", ⟨"m1"⟩), ("m2", ⟨"m2"⟩)] [] 2
        [("m0", 0), ("m1", 1), ("m2", 2)]) (by decide) (by decide)).2
    (by decide) (by decide)).2.1, by decide, by decide⟩

/-! ## Claim C7: summarize-failure isolation -/

theorem dictGet_dictSet {α : Type} (d : List (String × α)) (k : String) (v : α) :
    dictGet (dictSet d k v) k = some v := by
  unfold dictGet dictSet
  by_cases h : d.any (fun p => p.1 = k) = true
  · rw [if_pos h]
    induction d with
    | nil => simp at h
    | cons a as ih =>
        by_cases ha : a.1 = k
        · simp [List.find?_cons, ha]
        · simp only [List.any_cons, Bool.or_eq_true, decide_eq_true_eq] at h
          have has : as.any (fun p => p.1 = k) = true := by
            rcases h with h | h
            · exact absurd h ha
            · exact h
          simp only [List.map_cons, if_neg ha]
          rw [List.find?_cons_of_neg _ (by simpa using ha)]
          exact ih has
  · rw [if_neg h]
    induction d with
    | nil => simp
    | cons a as ih =>
        simp only [List.any_cons, Bool.or_eq_true, decide_eq_true_eq, not_or] at h
        rw [List.cons_append, List.find?_cons_of_neg _ (by simpa using h.1)]
        exact ih (by simpa using h.2)

/-- Collaborator and session constants for the C7 scenario: one loaded model
`"m"`, a summarizer that throws, and one that succeeds. -/
def c7_model : LoadedModel := ⟨"m"⟩

def c7_base : ShapeBridgeSession := ⟨[("m", c7_model)], [], 10, [("m", 0)]⟩

def c7_fail : LoadedModel → Except String GeometrySummary := fun _ => .error "boom"

def c7_fresh : GeometrySummary := { model_id := "m", units := [("length", "mm")] }

def c7_ok : LoadedModel → Except String GeometrySummary := fun _ => .ok c7_fresh

def c7_placeholder : GeometrySummary := create_placeholder_summary "m" "boom"

def c7_cached : ShapeBridgeSession := ⟨[("m", c7_model)], [("m", c7_placeholder)], 10, [("m", 0)]⟩

/-- C7 counterexample: the claim says subsequent summarize calls for the same
id do not re-attempt the known-failing computation until the entry is removed
or evicted.  In the code `generate_summary` never consults the summary cache:
after the failing call has cached the placeholder, a second call re-invokes
the summarizer — here one that now succeeds — and returns and caches its
fresh result instead of the cached placeholder. -/
theorem summarize_failure_isolation_counterexample :
    ShapeBridgeSession.generate_summary c7_fail c7_base "m" =
      .ok (c7_cached, c7_placeholder) ∧
    ShapeBridgeSession.generate_summary c7_ok c7_cached "m" =
      .ok (⟨[("m", c7_model)], [("m", c7_fresh)], 10, [("m", 0)]⟩, c7_fresh) ∧
    c7_fresh ≠ c7_placeholder :=
  ⟨rfl, rfl, by decide⟩

/-- C7 (amended): when the summarizer throws for a present model,
`generate_summary` does not propagate the failure: it returns the placeholder
summary whose warning carries the error text, caches it under the model id,
and leaves the model present in the store.  However, the cached summary is
never consulted by `generate_summary`: every subsequent call re-invokes the
summarizer (last conjunct: a later call with a succeeding summarizer returns
and caches the fresh result). -/
theorem summarize_failure_isolation
    (summarize_shape : LoadedModel → Except String GeometrySummary)
    (s : ShapeBridgeSession) (model_id : String) (m : LoadedModel) (e : String)
    (hm : dictGet s.models model_id = some m)
    (hf : summarize_shape m = .error e) :
    ShapeBridgeSession.generate_summary summarize_shape s model_id =
      .ok ({ s with summaries := dictSet s.summaries model_id (create_placeholder_summary model_id e) },
           create_placeholder_summary model_id e) ∧
    (create_placeholder_summary model_id e).analysis_warnings =
      ["Analysis failed: " ++ e] ∧
    dictGet (dictSet s.summaries model_id (create_placeholder_summary model_id e))
        model_id = some (create_placeholder_summary model_id e) ∧
    dictGet ({ s with summaries := dictSet s.summaries model_id (create_placeholder_summary model_id e) } : ShapeBridgeSession).models model_id =
      some m ∧
    (∀ (g : LoadedModel → Except String GeometrySummary) (s₂ : GeometrySummary),
      g m = .ok s₂ →
      ShapeBridgeSession.generate_summary g
          { s with summaries := dictSet s.summaries model_id (create_placeholder_summary model_id e) } model_id =
        .ok ({ s with summaries := dictSet (dictSet s.summaries model_id (create_placeholder_summary model_id e)) model_id s₂ }, s₂)) := by
  refine ⟨?_, rfl, dictGet_dictSet _ _ _, hm, ?_⟩
  · simp [ShapeBridgeSession.generate_summary, hm, hf]
  · intro g s₂ hg
    simp [ShapeBridgeSession.generate_summary, hm, hg]

/-- Witness for C7 at the concrete scenario: model `"m"`, summarizer failing
with `"boom"`. -/
theorem summarize_failure_isolation_witness :
    dictGet c7_base.models "m" = some c7_model ∧
    c7_fail c7_model = .error "boom" ∧
    ShapeBridgeSession.generate_summary c7_fail c7_base "m" =
      .ok ({ c7_base with summaries := dictSet c7_base.summaries "m" (create_placeholder_summary "m" "boom") },
           create_placeholder_summary "m" "boom") :=
  ⟨rfl, rfl,
    (summarize_failure_isolation c7_fail c7_base "m" c7_model "boom" rfl rfl).1⟩

/-! ## Claim C3: canonical node order -/

/-- The field list of a JSON object (empty for non-objects). -/
def objFields : Json → List (String × Json)
  | .obj fields => fields
  | _ => []

/-- The names recognized by `_node_sort_key`'s `type_priority` table. -/
def knownNodeTypes : List String :=
  ["Assembly", "Part", "Product", "ManifoldSolidBrep", "AdvancedFace", "EdgeCurve",
   "VertexPoint", "Unit", "CoordinateSystem", "PMI_Entity", "GeometricTolerance",
   "DimensioningTolerance", "ValidationProperty", "MaterialProperty", "SurfaceFinish"]

/-- C3: in canonical mode the encoded node list is a permutation of the IR's
nodes sorted ascending by `(type_priority, id)` (`nodeLe` is exactly the
lexicographic order on `(typePriority type, id)`), with the fixed priority
table Assembly=0, Part=1, Product=2, brep entities 10-13, units/coordinate
systems 20-21, PMI/tolerance entities 30-32, property entities 40-42, any
unrecognized type 999; in particular nodes
`[{id:"zzz",type:Part},{id:"aaa",type:Assembly},{id:"mmm",type:AdvancedFace}]`
canonicalize to id order `["aaa","zzz","mmm"]`. -/
theorem canonical_node_order :
    (∀ ir : IR, ∃ ns : List Node,
      jLookup (objFields (to_json_dict ir true)) "nodes" =
        some (.arr (ns.map (nodeToJson true))) ∧
      List.Perm ns ir.nodes ∧ ns.Pairwise nodeLe) ∧
    (typePriority "Assembly" = 0 ∧ typePriority "Part" = 1 ∧ typePriority "Product" = 2 ∧
     typePriority "ManifoldSolidBrep" = 10 ∧ typePriority "AdvancedFace" = 11 ∧
     typePriority "EdgeCurve" = 12 ∧ typePriority "VertexPoint" = 13 ∧
     typePriority "Unit" = 20 ∧ typePriority "CoordinateSystem" = 21 ∧
     typePriority "PMI_Entity" = 30 ∧ typePriority "GeometricTolerance" = 31 ∧
     typePriority "DimensioningTolerance" = 32 ∧ typePriority "ValidationProperty" = 40 ∧
     typePriority "MaterialProperty" = 41 ∧ typePriority "SurfaceFinish" = 42) ∧
    (∀ t : String, t ∉ knownNodeTypes → typePriority t = 999) ∧
    ((match jLookup (objFields (to_json_dict
        (mkIR "m" [mkNode "zzz" "Part" [], mkNode "aaa" "Assembly" [],
          mkNode "mmm" "AdvancedFace" []] [] [] [] {} none) true)) "nodes" with
      | some (.arr njs) => njs.map (fun nj => jGetD (objFields nj) "id" .null)
      | _ => []) = [.str "aaa", .str "zzz", .str "mmm"]) := by
  refine ⟨fun ir => ?_, ?_, fun t ht => ?_, ?_⟩
  · refine ⟨List.insertionSort nodeLe ir.nodes, ?_,
      List.perm_insertionSort nodeLe ir.nodes, List.sorted_insertionSort nodeLe ir.nodes⟩
    cases ir.bounding_box <;>
      simp [to_json_dict, objFields, jLookup, List.find?]
  · exact ⟨rfl, rfl, rfl, rfl, rfl, rfl, rfl, rfl, rfl, rfl, rfl, rfl, rfl, rfl, rfl⟩
  · rw [typePriority.eq_def]
    split <;> simp_all [knownNodeTypes]
  · decide

/-- Witness for C3's unrecognized-type clause at the concrete type
`"UnknownType"`. -/
theorem canonical_node_order_witness :
    ("UnknownType" : String) ∉ knownNodeTypes ∧ typePriority "UnknownType" = 999 :=
  ⟨by decide, canonical_node_order.2.2.1 "UnknownType" (by decide)⟩

/-! ## Claim C4: insertion-order invariance of canonical encoding -/

/-- A stable sort of two permuted lists gives the same result when distinct
elements have distinct sort keys. -/
theorem insertionSort_eq_of_perm_of_nodup_keys {α κ : Type} (r : α → α → Prop)
    [DecidableRel r] [IsTotal α r] [IsTrans α r] (key : α → κ)
    (hkey : ∀ a b, r a b → r b a → key a = key b)
    {l₁ l₂ : List α} (hp : List.Perm l₁ l₂) (hnd : (l₁.map key).Nodup) :
    List.insertionSort r l₁ = List.insertionSort r l₂ := by
  have hperm : List.Perm (List.insertionSort r l₁) (List.insertionSort r l₂) :=
    (List.perm_insertionSort r l₁).trans (hp.trans (List.perm_insertionSort r l₂).symm)
  have hnd₁ : List.Pairwise (fun a b => key a ≠ key b) (List.insertionSort r l₁) := by
    rw [← List.pairwise_map]
    exact (((List.perm_insertionSort r l₁).map key).nodup_iff).mpr hnd
  have hnd₂ : List.Pairwise (fun a b => key a ≠ key b) (List.insertionSort r l₂) := by
    rw [← List.pairwise_map]
    exact (((List.perm_insertionSort r l₂).map key).nodup_iff).mpr
      (((hp.map key).nodup_iff).mp hnd)
  have hstrict₁ := (List.sorted_insertionSort r l₁).and hnd₁
  have hstrict₂ := (List.sorted_insertionSort r l₂).and hnd₂
  haveI : IsAntisymm α (fun a b => r a b ∧ key a ≠ key b) :=
    ⟨fun a b h₁ h₂ => absurd (hkey a b h₁.1 h₂.1) h₁.2⟩
  exact List.eq_of_perm_of_sorted hperm hstrict₁ hstrict₂

/-- `_validate`'s advisory error list is unchanged by permuting the node and
edge sequences, provided no edge is dangling (a dangling edge's error
messages would follow the edge order). -/
theorem validateErrors_perm {nodes₁ nodes₂ : List Node} {edges₁ edges₂ : List Edge}
    (hn : List.Perm nodes₁ nodes₂) (he : List.Perm edges₁ edges₂)
    (hdangle : ∀ e ∈ edges₁, e.src ∈ nodes₁.map Node.id ∧ e.dst ∈ nodes₁.map Node.id) :
    validateErrors nodes₂ edges₂ = validateErrors nodes₁ edges₁ := by
  simp only [validateErrors]
  have hids : List.Perm (nodes₁.map Node.id) (nodes₂.map Node.id) := hn.map Node.id
  have hdup : ((nodes₂.map Node.id).dedup.length ≠ nodes₂.length) ↔
      ((nodes₁.map Node.id).dedup.length ≠ nodes₁.length) := by
    rw [hids.dedup.length_eq, hn.length_eq]
  have hedges₂ : ∀ e ∈ edges₂,
      (if e.src ∈ nodes₂.map Node.id then []
        else ["Edge references unknown source node: " ++ e.src]) ++
      (if e.dst ∈ nodes₂.map Node.id then []
        else ["Edge references unknown destination node: " ++ e.dst]) = ([] : List String) := by
    intro e hmem
    have h := hdangle e (he.mem_iff.mpr hmem)
    rw [if_pos (hids.mem_iff.mp h.1), if_pos (hids.mem_iff.mp h.2)]
    rfl
  have hedges₁ : ∀ e ∈ edges₁,
      (if e.src ∈ nodes₁.map Node.id then []
        else ["Edge references unknown source node: " ++ e.src]) ++
      (if e.dst ∈ nodes₁.map Node.id then []
        else ["Edge references unknown destination node: " ++ e.dst]) = ([] : List String) := by
    intro e hmem
    have h := hdangle e hmem
    rw [if_pos h.1, if_pos h.2]
    rfl
  rw [List.flatMap_eq_nil_iff.mpr hedges₂, List.flatMap_eq_nil_iff.mpr hedges₁]
  rw [if_congr hdup rfl rfl]

/-- C4 counterexample: two distinct nodes sharing the sort key `(1, "a")`
(same type `Part`, same id, different attrs).  The stable sort preserves
their input order, so canonical encoding of the permuted IR differs. -/
theorem canonical_invariance_counterexample :
    to_json_dict (mkIR "m"
        [mkNode "a" "Part" [("k", .str "1")], mkNode "a" "Part" [("k", .str "2")]]
        [] [] [] {} none) true ≠
      to_json_dict (mkIR "m"
        [mkNode "a" "Part" [("k", .str "2")], mkNode "a" "Part" [("k", .str "1")]]
        [] [] [] {} none) true := by
  decide

/-- C4 (amended): canonical encoding is invariant under permuting the node
and edge insertion orders, provided distinct nodes have distinct
`(type_priority, id)` sort keys, distinct edges have distinct
`(src, dst, type)` sort keys, and every edge endpoint references an existing
node id (a dangling edge's advisory error strings follow the edge insertion
order, and nodes or edges with equal sort keys keep their insertion order
under the stable sort). -/
theorem canonical_insertion_order_invariance
    (model_id : String) (nodes₁ nodes₂ : List Node) (edges₁ edges₂ : List Edge)
    (units : List (String × String)) (provenance : List (String × Json))
    (validation : ValidationInfo) (bbox : Option BoundingBox)
    (hn : List.Perm nodes₁ nodes₂) (he : List.Perm edges₁ edges₂)
    (hnk : (nodes₁.map nodeSortKey).Nodup) (hek : (edges₁.map edgeSortKey).Nodup)
    (hdangle : ∀ e ∈ edges₁, e.src ∈ nodes₁.map Node.id ∧ e.dst ∈ nodes₁.map Node.id) :
    to_json_dict (mkIR model_id nodes₂ edges₂ units provenance validation bbox) true =
      to_json_dict (mkIR model_id nodes₁ edges₁ units provenance validation bbox) true := by
  have hsortn : List.insertionSort nodeLe nodes₂ = List.insertionSort nodeLe nodes₁ :=
    (insertionSort_eq_of_perm_of_nodup_keys nodeLe nodeSortKey
      (fun a b h₁ h₂ => by
        have := nodeLe_antisymm_key h₁ h₂
        unfold nodeSortKey
        rw [this.1, this.2]) hn hnk).symm
  have hsorte : List.insertionSort edgeLe edges₂ = List.insertionSort edgeLe edges₁ :=
    (insertionSort_eq_of_perm_of_nodup_keys edgeLe edgeSortKey
      (fun a b h₁ h₂ => by
        have := edgeLe_antisymm_key h₁ h₂
        unfold edgeSortKey
        rw [this.1, this.2.1, this.2.2]) he hek).symm
  have hval := validateErrors_perm hn he hdangle
  simp only [to_json_dict, mkIR, if_true]
  rw [hsortn, hsorte, hval, ← hn.length_eq, ← he.length_eq]

/-- Witness for C4 at the spec's example: nodes
`[{id:"zzz",type:Part},{id:"aaa",type:Assembly},{id:"mmm",type:AdvancedFace}]`
permuted; both canonical encodings agree. -/
theorem canonical_insertion_order_invariance_witness :
    List.Perm
      [mkNode "zzz" "Part" [], mkNode "aaa" "Assembly" [], mkNode "mmm" "AdvancedFace" []]
      [mkNode "aaa" "Assembly" [], mkNode "mmm" "AdvancedFace" [], mkNode "zzz" "Part" []] ∧
    ([mkNode "zzz" "Part" [], mkNode "aaa" "Assembly" [],
      mkNode "mmm" "AdvancedFace" []].map nodeSortKey).Nodup ∧
    to_json_dict (mkIR "m"
        [mkNode "aaa" "Assembly" [], mkNode "mmm" "AdvancedFace" [], mkNode "zzz" "Part" []]
        [] [] [] {} none) true =
      to_json_dict (mkIR "m"
        [mkNode "zzz" "Part" [], mkNode "aaa" "Assembly" [], mkNode "mmm" "AdvancedFace" []]
        [] [] [] {} none) true :=
  ⟨by decide, by decide,
    canonical_insertion_order_invariance "m"
      [mkNode "zzz" "Part" [], mkNode "aaa" "Assembly" [], mkNode "mmm" "AdvancedFace" []]
      [mkNode "aaa" "Assembly" [], mkNode "mmm" "AdvancedFace" [], mkNode "zzz" "Part" []]
      [] [] [] [] {} none (by decide) (.refl []) (by decide) (by decide)
      (fun e hmem => absurd hmem (List.not_mem_nil e))⟩

/-! ## Claim C2: decode tolerance for malformed persisted data -/

theorem dedup_length_ne_iff {α : Type} [DecidableEq α] (l : List α) :
    l.dedup.length ≠ l.length ↔ ¬ l.Nodup := by
  constructor
  · intro h hnd
    exact h (by rw [List.dedup_eq_self.mpr hnd])
  · intro hnd h
    apply hnd
    have heq : l.dedup = l := (List.dedup_sublist l).eq_of_length h
    rw [← heq]
    exact List.nodup_dedup l

/-- The advisory errors appended by the `IR` constructor are visible in
`validation.errors`: duplicate node ids and dangling edge endpoints each
leave their message. -/
theorem mkIR_visible_errors (model_id : String) (nodes : List Node) (edges : List Edge)
    (units : List (String × String)) (provenance : List (String × Json))
    (validation : ValidationInfo) (bbox : Option BoundingBox) :
    (¬ (nodes.map Node.id).Nodup →
      "Duplicate node IDs found" ∈
        (mkIR model_id nodes edges units provenance validation bbox).validation.errors) ∧
    (∀ e ∈ edges, e.src ∉ nodes.map Node.id →
      ("Edge references unknown source node: " ++ e.src) ∈
        (mkIR model_id nodes edges units provenance validation bbox).validation.errors) ∧
    (∀ e ∈ edges, e.dst ∉ nodes.map Node.id →
      ("Edge references unknown destination node: " ++ e.dst) ∈
        (mkIR model_id nodes edges units provenance validation bbox).validation.errors) := by
  refine ⟨fun hdup => ?_, fun e hmem hsrc => ?_, fun e hmem hdst => ?_⟩
  · show _ ∈ validation.errors ++ validateErrors nodes edges
    apply List.mem_append_right
    simp only [validateErrors]
    apply List.mem_append_left
    have hdup' : (nodes.map Node.id).dedup.length ≠ nodes.length := by
      rw [← List.length_map nodes Node.id]
      exact (dedup_length_ne_iff _).mpr hdup
    rw [if_pos hdup']
    simp
  · show _ ∈ validation.errors ++ validateErrors nodes edges
    apply List.mem_append_right
    simp only [validateErrors]
    apply List.mem_append_right
    rw [List.mem_flatMap]
    refine ⟨e, hmem, List.mem_append_left _ ?_⟩
    rw [if_neg hsrc]
    simp
  · show _ ∈ validation.errors ++ validateErrors nodes edges
    apply List.mem_append_right
    simp only [validateErrors]
    apply List.mem_append_right
    rw [List.mem_flatMap]
    refine ⟨e, hmem, List.mem_append_right _ ?_⟩
    rw [if_neg hdst]
    simp

theorem mapM_ok_mem {α β : Type} {f : α → Except DecodeErr β} :
    ∀ {l : List α} {l' : List β}, l.mapM f = .ok l' → ∀ b ∈ l', ∃ a ∈ l, f a = .ok b := by
  intro l
  induction l with
  | nil =>
      intro l' h b hb
      simp only [List.mapM_nil, pure, Except.pure, Except.ok.injEq] at h
      subst h
      simp at hb
  | cons a as ih =>
      intro l' h b hb
      rw [List.mapM_cons] at h
      cases hfa : f a with
      | error er => rw [hfa] at h; simp [Bind.bind, Except.bind] at h
      | ok x =>
          rw [hfa] at h
          cases hmm : as.mapM f with
          | error er =>
              rw [hmm] at h; simp [Bind.bind, Except.bind, pure, Except.pure] at h
          | ok xs =>
              rw [hmm] at h
              simp only [Bind.bind, Except.bind, pure, Except.pure, Except.ok.injEq] at h
              subst h
              rcases List.mem_cons.mp hb with rfl | hbtl
              · exact ⟨a, List.mem_cons_self a as, hfa⟩
              · rcases ih hmm b hbtl with ⟨a', ha', hfa'⟩
                exact ⟨a', List.mem_cons_of_mem a ha', hfa'⟩

theorem mkEdge_ok_wf {src dst type : String} {attrs : List (String × Json)} {e : Edge}
    (h : mkEdge src dst type attrs = .ok e) :
    e.src ≠ "" ∧ e.dst ≠ "" ∧ e.src ≠ e.dst := by
  unfold mkEdge at h
  split at h
  · cases h
  · split at h
    · cases h
    · rename_i hemp hloop
      rw [not_or] at hemp
      cases h
      exact ⟨hemp.1, hemp.2, hloop⟩

theorem except_bind_ok {ε σ τ : Type} {m : Except ε σ} {k : σ → Except ε τ} {out : τ}
    (hrun : m >>= k = Except.ok out) : ∃ mid, k mid = Except.ok out ∧ m = Except.ok mid := by
  cases hm : m with
  | ok mid =>
      refine ⟨mid, ?_, rfl⟩
      rw [hm] at hrun
      simpa [Bind.bind, Except.bind] using hrun
  | error err =>
      rw [hm] at hrun
      simp [Bind.bind, Except.bind] at hrun

theorem edgeOfJson_ok_wf {j : Json} {e : Edge} (h : edgeOfJson j = .ok e) :
    e.src ≠ "" ∧ e.dst ≠ "" ∧ e.src ≠ e.dst := by
  unfold edgeOfJson at h
  obtain ⟨fields, h, h1⟩ := except_bind_ok h
  obtain ⟨srcj, h, h2⟩ := except_bind_ok h
  obtain ⟨src, h, h3⟩ := except_bind_ok h
  obtain ⟨dstj, h, h4⟩ := except_bind_ok h
  obtain ⟨dst, h, h5⟩ := except_bind_ok h
  obtain ⟨typej, h, h6⟩ := except_bind_ok h
  obtain ⟨etype, h, h7⟩ := except_bind_ok h
  obtain ⟨attrs, h, h8⟩ := except_bind_ok h
  cases hmk : mkEdge src dst etype attrs with
  | error er =>
      rw [hmk] at h
      exact absurd h (by simp [throw, throwThe, MonadExceptOf.throw])
  | ok e' =>
      rw [hmk] at h
      cases h
      exact mkEdge_ok_wf hmk

/-- Successful decoding always goes through the tolerant `IR` constructor:
the decoded IR is `mkIR` of the decoded pieces, and every decoded edge went
through `Edge.__post_init__` successfully. -/
theorem dict_to_ir_ok_shape {j : Json} {ir : IR} (hok : dict_to_ir j = .ok ir) :
    ∃ model_id nodes edges units provenance validation bbox,
      ir = mkIR model_id nodes edges units provenance validation bbox ∧
      (∀ e ∈ edges, e.src ≠ "" ∧ e.dst ≠ "" ∧ e.src ≠ e.dst) := by
  unfold dict_to_ir at hok
  obtain ⟨data, hok, h1⟩ := except_bind_ok hok
  obtain ⟨valFields, hok, h2⟩ := except_bind_ok hok
  obtain ⟨nodesJson, hok, h3⟩ := except_bind_ok hok
  obtain ⟨nodes, hok, h4⟩ := except_bind_ok hok
  obtain ⟨edgesJson, hok, h5⟩ := except_bind_ok hok
  obtain ⟨edges, hok, h6⟩ := except_bind_ok hok
  cases hbb : jLookup data "bounding_box" with
  | none =>
      simp only [hbb, pure_bind] at hok
      obtain ⟨mj, hok, h8⟩ := except_bind_ok hok
      obtain ⟨model_id, hok, h9⟩ := except_bind_ok hok
      cases hok
      refine ⟨_, _, _, _, _, _, _, rfl, fun e hmem => ?_⟩
      rcases mapM_ok_mem h6 e hmem with ⟨a, _, hfa⟩
      exact edgeOfJson_ok_wf hfa
  | some bj =>
      simp only [hbb] at hok
      obtain ⟨b, hok, hbj⟩ := except_bind_ok hok
      simp only [pure_bind] at hok
      obtain ⟨mj, hok, h8⟩ := except_bind_ok hok
      obtain ⟨model_id, hok, h9⟩ := except_bind_ok hok
      cases hok
      refine ⟨_, _, _, _, _, _, _, rfl, fun e hmem => ?_⟩
      rcases mapM_ok_mem h6 e hmem with ⟨a, _, hfa⟩
      exact edgeOfJson_ok_wf hfa

/-- C2 counterexample: a persisted record holding an edge with
`src == dst == "n1"` does not decode into an IR with the malformed state
visible; `Edge.__post_init__` raises and `load_jsonl` re-raises it as a
`Failed to parse line` error. -/
theorem decode_self_loop_counterexample :
    dict_to_ir (.obj [("model_id", .str "m"),
        ("nodes", .arr [.obj [("id", .str "n1"), ("type", .str "Part")]]),
        ("edges", .arr [.obj [("src", .str "n1"), ("dst", .str "n1"),
          ("type", .str "contains")]])]) =
      .error (.valueErr .SelfLoop) ∧
    load_jsonl_line 1 (.obj [("model_id", .str "m"),
        ("nodes", .arr [.obj [("id", .str "n1"), ("type", .str "Part")]]),
        ("edges", .arr [.obj [("src", .str "n1"), ("dst", .str "n1"),
          ("type", .str "contains")]])]) =
      .error (.parseFailed 1 "Self-loops are not allowed in STEPGraph-IR") :=
  ⟨rfl, rfl⟩

/-- C2 (amended): decoding does not re-run the uniqueness or dangling-edge
validation as a throwing check — whenever decoding succeeds, duplicate node
ids and dangling endpoints are visible via `validation.errors` — but the
endpoint validation of `Edge.__post_init__` (empty endpoint / self-loop) IS
re-run as a throwing check: a persisted edge with `src == dst` makes the
decode fail with a wrapped `ValueError` (`Failed to parse line N`) instead of
yielding an IR, so no decoded IR ever contains a self-loop edge. -/
theorem decode_tolerance (j : Json) (ir : IR) (hok : dict_to_ir j = .ok ir) :
    (¬ (ir.nodes.map Node.id).Nodup →
      "Duplicate node IDs found" ∈ ir.validation.errors) ∧
    (∀ e ∈ ir.edges, e.src ∉ ir.nodes.map Node.id →
      ("Edge references unknown source node: " ++ e.src) ∈ ir.validation.errors) ∧
    (∀ e ∈ ir.edges, e.dst ∉ ir.nodes.map Node.id →
      ("Edge references unknown destination node: " ++ e.dst) ∈ ir.validation.errors) ∧
    (∀ e ∈ ir.edges, e.src ≠ e.dst) ∧
    (∀ mid src etype : String, src ≠ "" →
      dict_to_ir (.obj [("model_id", .str mid),
        ("edges", .arr [.obj [("src", .str src), ("dst", .str src),
          ("type", .str etype)]])]) = .error (.valueErr .SelfLoop)) := by
  rcases dict_to_ir_ok_shape hok with
    ⟨model_id, nodes, edges, units, provenance, validation, bbox, rfl, hwf⟩
  have hvis := mkIR_visible_errors model_id nodes edges units provenance validation bbox
  refine ⟨hvis.1, hvis.2.1, hvis.2.2, fun e hmem => (hwf e hmem).2.2, ?_⟩
  intro mid src etype hsrc
  simp [dict_to_ir, jGetD, jLookup, reqObj, reqArr, reqKey, reqStr, nodeOfJson, edgeOfJson,
    mkEdge, hsrc, Bind.bind, Except.bind, List.mapM.loop, List.find?, pure, Except.pure,
    throw, throwThe, MonadExceptOf.throw]

/-- Witness for C2: a record with two nodes sharing id `"dup"` decodes
without throwing into an IR whose `validation.errors` mention the duplicate
ids. -/
theorem decode_tolerance_witness :
    dict_to_ir (.obj [("model_id", .str "m"),
        ("nodes", .arr [.obj [("id", .str "dup"), ("type", .str "Part")],
          .obj [("id", .str "dup"), ("type", .str "Part")]])]) =
      .ok (mkIR "m" [mkNode "dup" "Part" [], mkNode "dup" "Part" []] []
        [("length", "mm"), ("angle", "deg")] []
        { schema_version := "0.1.0", created_at := "", node_count := 0, edge_count := 0,
          warnings := [], errors := [] } none) ∧
    "Duplicate node IDs found" ∈
      (mkIR "m" [mkNode "dup" "Part" [], mkNode "dup" "Part" []] []
        [("length", "mm"), ("angle", "deg")] []
        { schema_version := "0.1.0", created_at := "", node_count := 0, edge_count := 0,
          warnings := [], errors := [] } none).validation.errors :=
  ⟨rfl,
    (decode_tolerance (.obj [("model_id", .str "m"),
        ("nodes", .arr [.obj [("id", .str "dup"), ("type", .str "Part")],
          .obj [("id", .str "dup"), ("type", .str "Part")]])])
      (mkIR "m" [mkNode "dup" "Part" [], mkNode "dup" "Part" []] []
        [("length", "mm"), ("angle", "deg")] []
        { schema_version := "0.1.0", created_at := "", node_count := 0, edge_count := 0,
          warnings := [], errors := [] } none) rfl).1 (by decide)⟩

/-! ## Claim C1: round-trip law -/

/-- The node produced by decoding the canonical encoding of `n`: same id and
type, attrs canonically sorted. -/
def canonNode (n : Node) : Node :=
  { n with attrs := List.insertionSort fieldLe (sortJsonFields n.attrs) }

/-- The edge produced by decoding the canonical encoding of `e`. -/
def canonEdge (e : Edge) : Edge :=
  { e with attrs := List.insertionSort fieldLe (sortJsonFields e.attrs) }

/-- The comparison `sorted(units.items())` uses: order pairs by key. -/
def unitLe (a b : String × String) : Prop := strLe a.1 b.1

instance : DecidableRel unitLe := fun a b => inferInstanceAs (Decidable (strLe a.1 b.1))

instance : IsTotal (String × String) unitLe := ⟨fun a b => strLe_total a.1 b.1⟩

instance : IsTrans (String × String) unitLe := ⟨fun _ _ _ h₁ h₂ => strLe_trans h₁ h₂⟩

theorem asNatD_natCast (n : Nat) : asNatD (.num n) = n := by
  simp [asNatD]

theorem asStrList_map_str (l : List String) : asStrList (.arr (l.map Json.str)) = l := by
  simp only [asStrList, List.filterMap_map]
  induction l with
  | nil => rfl
  | cons x xs ih => simpa [Function.comp] using ih

theorem asStrPairs_map_str (l : List (String × String)) :
    asStrPairs (.obj (l.map (fun p => (p.1, Json.str p.2)))) = l := by
  simp only [asStrPairs, List.filterMap_map]
  induction l with
  | nil => rfl
  | cons x xs ih => simpa [Function.comp] using ih

theorem sortJsonFields_map_str (l : List (String × String)) :
    sortJsonFields (l.map (fun p => (p.1, Json.str p.2))) =
      l.map (fun p => (p.1, Json.str p.2)) := by
  rw [sortJsonFields_eq_map, List.map_map]
  apply List.map_congr_left
  intro p _
  rfl

theorem units_sorted_encode (units : List (String × String)) :
    List.insertionSort fieldLe (sortJsonFields (units.map (fun p => (p.1, Json.str p.2)))) =
      (List.insertionSort unitLe units).map (fun p => (p.1, Json.str p.2)) := by
  rw [sortJsonFields_map_str]
  exact (List.map_insertionSort unitLe fieldLe (fun p => (p.1, Json.str p.2)) units
    (fun a _ b _ => Iff.rfl)).symm

/-- Keys are preserved by canonical attr sorting, as a permutation. -/
theorem canon_attrs_keys (attrs : List (String × Json)) :
    List.Perm ((List.insertionSort fieldLe (sortJsonFields attrs)).map Prod.fst)
      (attrs.map Prod.fst) := by
  have h := (List.perm_insertionSort fieldLe (sortJsonFields attrs)).map Prod.fst
  rw [sortJsonFields_fst] at h
  exact h

theorem mapM_map_ok {α β γ : Type} {f : β → Except DecodeErr γ} {g : α → β} {h : α → γ} :
    ∀ {l : List α}, (∀ x ∈ l, f (g x) = .ok (h x)) → (l.map g).mapM f = .ok (l.map h) := by
  intro l
  induction l with
  | nil => intro _; rfl
  | cons x xs ih =>
      intro hpt
      rw [List.map_cons, List.mapM_cons, hpt x (List.mem_cons_self x xs),
        ih (fun y hy => hpt y (List.mem_cons_of_mem x hy))]
      rfl

/-- Decoding the canonical encoding of a node yields the node with sorted
attrs, provided the id is non-empty and container nodes already carry a
`name` attribute (so `Node.__post_init__` changes nothing on decode). -/
theorem nodeOfJson_encode (n : Node) (hid : n.id ≠ "")
    (hname : (n.type = "Assembly" ∨ n.type = "Part" ∨ n.type = "Product") →
      "name" ∈ n.attrs.map Prod.fst) :
    nodeOfJson (nodeToJson true n) = .ok (canonNode n) := by
  simp only [nodeOfJson, nodeToJson, if_true, sortJsonKeys]
  simp [reqObj, reqKey, jGetD, jLookup, List.find?, reqStr, Bind.bind, Except.bind, pure,
    Except.pure, mkNode, hid, canonNode]
  intro hcont
  rcases List.mem_map.mp (hname hcont) with ⟨f, hf, hk⟩
  obtain ⟨k, v⟩ := f
  have hk' : k = "name" := hk
  subst hk'
  rw [sortJsonFields_eq_map]
  exact ⟨sortJsonKeys v, List.mem_map.mpr ⟨("name", v), hf, rfl⟩⟩

/-- Decoding the canonical encoding of a well-formed edge yields the edge
with sorted attrs. -/
theorem edgeOfJson_encode (e : Edge) (hsrc : e.src ≠ "") (hdst : e.dst ≠ "")
    (hloop : e.src ≠ e.dst) :
    edgeOfJson (edgeToJson true e) = .ok (canonEdge e) := by
  simp only [edgeOfJson, edgeToJson, if_true, sortJsonKeys]
  simp [reqObj, reqKey, jGetD, jLookup, List.find?, reqStr, Bind.bind, Except.bind, pure,
    Except.pure, mkEdge, hsrc, hdst, hloop, canonEdge]

theorem bboxOfJson_encode (b : BoundingBox) : bboxOfJson (bboxToJson b) = .ok b := rfl

/-- With unique node ids and no dangling edges, `_validate` records no
advisory errors. -/
theorem validateErrors_eq_nil {nodes : List Node} {edges : List Edge}
    (hnd : (nodes.map Node.id).Nodup)
    (hdangle : ∀ e ∈ edges, e.src ∈ nodes.map Node.id ∧ e.dst ∈ nodes.map Node.id) :
    validateErrors nodes edges = [] := by
  simp only [validateErrors]
  rw [if_neg (by
    rw [← List.length_map nodes Node.id]
    exact fun h => h (congrArg List.length (List.dedup_eq_self.mpr hnd)))]
  rw [List.flatMap_eq_nil_iff.mpr (fun e hmem => by
    rw [if_pos (hdangle e hmem).1, if_pos (hdangle e hmem).2]
    rfl)]
  rfl

/-- Canonical attr sorting changes neither id nor type, so the node sort
order is preserved. -/
theorem pairwise_nodeLe_map_canon {l : List Node} (h : l.Pairwise nodeLe) :
    (l.map canonNode).Pairwise nodeLe :=
  List.pairwise_map.mpr (h.imp (fun hab => hab))

theorem pairwise_edgeLe_map_canon {l : List Edge} (h : l.Pairwise edgeLe) :
    (l.map canonEdge).Pairwise edgeLe :=
  List.pairwise_map.mpr (h.imp (fun hab => hab))

/-- Re-encoding a canonicalized node changes nothing (idempotence of the
attr canonicalization). -/
theorem nodeToJson_canonNode (n : Node) : nodeToJson true (canonNode n) = nodeToJson true n := by
  simp only [nodeToJson, canonNode, if_true]
  rw [show Json.obj (List.insertionSort fieldLe (sortJsonFields n.attrs)) =
      sortJsonKeys (Json.obj n.attrs) from rfl,
    sortJsonKeys_idem (Json.obj n.attrs)]

theorem edgeToJson_canonEdge (e : Edge) : edgeToJson true (canonEdge e) = edgeToJson true e := by
  simp only [edgeToJson, canonEdge, if_true]
  rw [show Json.obj (List.insertionSort fieldLe (sortJsonFields e.attrs)) =
      sortJsonKeys (Json.obj e.attrs) from rfl,
    sortJsonKeys_idem (Json.obj e.attrs)]

/-- The validation block as reconstructed by decoding a canonical encoding:
`schema_version` falls back to `"0.1.0"` because `to_json_dict` writes it at
the top level, not inside the `validation` block where `_dict_to_ir` reads
it. -/
def canonValidation (v : ValidationInfo) : ValidationInfo :=
  { schema_version := "0.1.0", created_at := v.created_at, node_count := v.node_count,
    edge_count := v.edge_count, warnings := v.warnings, errors := v.errors }

/-- The IR reconstructed by `_dict_to_ir` from the canonical encoding of
`ir` (proved below in `round_trip_canonical`). -/
def canonIR (ir : IR) : IR :=
  mkIR ir.model_id ((List.insertionSort nodeLe ir.nodes).map canonNode)
    ((List.insertionSort edgeLe ir.edges).map canonEdge)
    (List.insertionSort unitLe ir.units)
    (List.insertionSort fieldLe (sortJsonFields ir.provenance))
    (canonValidation ir.validation) ir.bounding_box

/-- C1 (amended): the round-trip law holds for every IR whose
`validation.schema_version` is the current `"0.1.0"`, whose stored counts
match the sequences, whose node ids are unique and non-empty, whose container
nodes already carry a `name` attribute, whose edges are well-formed
(non-empty endpoints, no self-loops) and reference existing nodes — in
particular for every IR assembled by the constructors from valid data.
Decoding the canonical encoding succeeds, and re-encoding the decoded IR in
canonical mode is byte-identical to the first encoding. -/
theorem round_trip_canonical (ir : IR)
    (hsv : ir.validation.schema_version = "0.1.0")
    (hnc : ir.validation.node_count = ir.nodes.length)
    (hec : ir.validation.edge_count = ir.edges.length)
    (hnd : (ir.nodes.map Node.id).Nodup)
    (hids : ∀ n ∈ ir.nodes, n.id ≠ "")
    (hname : ∀ n ∈ ir.nodes, (n.type = "Assembly" ∨ n.type = "Part" ∨ n.type = "Product") →
      "name" ∈ n.attrs.map Prod.fst)
    (hedges : ∀ e ∈ ir.edges, e.src ≠ "" ∧ e.dst ≠ "" ∧ e.src ≠ e.dst)
    (hdangle : ∀ e ∈ ir.edges, e.src ∈ ir.nodes.map Node.id ∧ e.dst ∈ ir.nodes.map Node.id) :
    dict_to_ir (to_json_dict ir true) = .ok (canonIR ir) ∧
      to_json_dict (canonIR ir) true = to_json_dict ir true := by
  have hnperm := List.perm_insertionSort nodeLe ir.nodes
  have heperm := List.perm_insertionSort edgeLe ir.edges
  have hnodes : ((List.insertionSort nodeLe ir.nodes).map (nodeToJson true)).mapM nodeOfJson
      = .ok ((List.insertionSort nodeLe ir.nodes).map canonNode) :=
    mapM_map_ok (fun n hn => nodeOfJson_encode n
      (hids n (hnperm.mem_iff.mp hn)) (hname n (hnperm.mem_iff.mp hn)))
  have hedgesM : ((List.insertionSort edgeLe ir.edges).map (edgeToJson true)).mapM edgeOfJson
      = .ok ((List.insertionSort edgeLe ir.edges).map canonEdge) :=
    mapM_map_ok (fun e he => edgeOfJson_encode e
      (hedges e (heperm.mem_iff.mp he)).1 (hedges e (heperm.mem_iff.mp he)).2.1
      (hedges e (heperm.mem_iff.mp he)).2.2)
  -- facts about the canonicalized pieces needed for both directions
  have hcanon_node_ids :
      ((List.insertionSort nodeLe ir.nodes).map canonNode).map Node.id =
        (List.insertionSort nodeLe ir.nodes).map Node.id := by
    rw [List.map_map]
    exact List.map_congr_left (fun n _ => rfl)
  have hnd' : (((List.insertionSort nodeLe ir.nodes).map canonNode).map Node.id).Nodup := by
    rw [hcanon_node_ids]
    exact ((hnperm.map Node.id).nodup_iff).mpr hnd
  have hdangle' : ∀ e ∈ (List.insertionSort edgeLe ir.edges).map canonEdge,
      e.src ∈ ((List.insertionSort nodeLe ir.nodes).map canonNode).map Node.id ∧
      e.dst ∈ ((List.insertionSort nodeLe ir.nodes).map canonNode).map Node.id := by
    intro e hmem
    rcases List.mem_map.mp hmem with ⟨e₀, he₀, rfl⟩
    have h := hdangle e₀ (heperm.mem_iff.mp he₀)
    rw [hcanon_node_ids]
    constructor
    · exact ((hnperm.map Node.id).mem_iff).mpr h.1
    · exact ((hnperm.map Node.id).mem_iff).mpr h.2
  have hval_nil : validateErrors ((List.insertionSort nodeLe ir.nodes).map canonNode)
      ((List.insertionSort edgeLe ir.edges).map canonEdge) = [] :=
    validateErrors_eq_nil hnd' hdangle'
  have hnodesL : List.mapM.loop nodeOfJson
      ((List.insertionSort nodeLe ir.nodes).map (nodeToJson true)) [] =
      .ok ((List.insertionSort nodeLe ir.nodes).map canonNode) := hnodes
  have hedgesL : List.mapM.loop edgeOfJson
      ((List.insertionSort edgeLe ir.edges).map (edgeToJson true)) [] =
      .ok ((List.insertionSort edgeLe ir.edges).map canonEdge) := hedgesM
  constructor
  · cases hbb : ir.bounding_box with
    | none =>
        simp [dict_to_ir, to_json_dict, hbb, reqObj, reqKey, reqStr, reqArr, jGetD, jLookup,
          List.find?, Bind.bind, Except.bind, pure, Except.pure, hnodesL, hedgesL,
          asNatD_natCast, asStrList_map_str, asStrD, canonIR, canonValidation,
          units_sorted_encode, asStrPairs_map_str, sortJsonKeys]
    | some b =>
        simp [dict_to_ir, to_json_dict, hbb, reqObj, reqKey, reqStr, reqArr, jGetD, jLookup,
          List.find?, Bind.bind, Except.bind, pure, Except.pure, hnodesL, hedgesL,
          asNatD_natCast, asStrList_map_str, asStrD, canonIR, canonValidation,
          units_sorted_encode, asStrPairs_map_str, sortJsonKeys, bboxOfJson_encode]
  · have hsort_nodes : List.insertionSort nodeLe
        ((List.insertionSort nodeLe ir.nodes).map canonNode) =
        (List.insertionSort nodeLe ir.nodes).map canonNode :=
      List.Sorted.insertionSort_eq
        (pairwise_nodeLe_map_canon (List.sorted_insertionSort nodeLe ir.nodes))
    have hsort_edges : List.insertionSort edgeLe
        ((List.insertionSort edgeLe ir.edges).map canonEdge) =
        (List.insertionSort edgeLe ir.edges).map canonEdge :=
      List.Sorted.insertionSort_eq
        (pairwise_edgeLe_map_canon (List.sorted_insertionSort edgeLe ir.edges))
    have hmap_nodes : ((List.insertionSort nodeLe ir.nodes).map canonNode).map
        (nodeToJson true) = (List.insertionSort nodeLe ir.nodes).map (nodeToJson true) := by
      rw [List.map_map]
      exact List.map_congr_left (fun n _ => nodeToJson_canonNode n)
    have hmap_edges : ((List.insertionSort edgeLe ir.edges).map canonEdge).map
        (edgeToJson true) = (List.insertionSort edgeLe ir.edges).map (edgeToJson true) := by
      rw [List.map_map]
      exact List.map_congr_left (fun e _ => edgeToJson_canonEdge e)
    have hunits : sortJsonKeys (Json.obj ((List.insertionSort unitLe ir.units).map
        (fun p => (p.1, Json.str p.2)))) =
        sortJsonKeys (Json.obj (ir.units.map (fun p => (p.1, Json.str p.2)))) := by
      rw [show sortJsonKeys (Json.obj ((List.insertionSort unitLe ir.units).map
            (fun p => (p.1, Json.str p.2)))) =
          Json.obj (List.insertionSort fieldLe (sortJsonFields
            ((List.insertionSort unitLe ir.units).map (fun p => (p.1, Json.str p.2)))))
          from rfl,
        show sortJsonKeys (Json.obj (ir.units.map (fun p => (p.1, Json.str p.2)))) =
          Json.obj (List.insertionSort fieldLe (sortJsonFields
            (ir.units.map (fun p => (p.1, Json.str p.2))))) from rfl,
        units_sorted_encode, units_sorted_encode,
        (List.sorted_insertionSort unitLe ir.units).insertionSort_eq]
    have hprov : sortJsonKeys (Json.obj (List.insertionSort fieldLe
        (sortJsonFields ir.provenance))) = sortJsonKeys (Json.obj ir.provenance) := by
      rw [show Json.obj (List.insertionSort fieldLe (sortJsonFields ir.provenance)) =
          sortJsonKeys (Json.obj ir.provenance) from rfl,
        sortJsonKeys_idem (Json.obj ir.provenance)]
    simp only [canonIR, mkIR, to_json_dict, canonValidation, hval_nil, List.append_nil,
      if_true, hsort_nodes, hsort_edges, hmap_nodes, hmap_edges, hunits, hprov,
      List.length_map, List.length_insertionSort, hsv, hnc, hec, ValidationInfo.is_valid]

/-- An IR differing from the default only in `validation.schema_version`;
its warnings, errors and provenance are JSON-representable, so it satisfies
the original claim's hypothesis. -/
def c1_bad : IR :=
  mkIR "m" [mkNode "n1" "Part" []] [] [("length", "mm")] []
    { schema_version := "0.2.0", created_at := "2024-01-01T00:00:00", node_count := 0,
      edge_count := 0, warnings := [], errors := [] } none

/-- C1 counterexample: the round-trip law as claimed fails for an IR whose
`validation.schema_version` is `"0.2.0"`: `to_json_dict` writes the schema
version only at the top level, while `_dict_to_ir` reads it from inside the
`validation` block, where it never is, and falls back to `"0.1.0"`; the
re-encoded record therefore differs byte-wise from the original encoding. -/
theorem round_trip_counterexample :
    dict_to_ir (to_json_dict c1_bad true) = .ok (canonIR c1_bad) ∧
    to_json_dict (canonIR c1_bad) true ≠ to_json_dict c1_bad true :=
  ⟨rfl, by decide⟩

/-- A well-formed IR as assembled by the constructors from valid data. -/
def c1_good : IR :=
  mkIR "m" [mkNode "n1" "Part" []] [] [("length", "mm"), ("angle", "deg")]
    [("phase", .str "0")] {} none

/-- Witness for C1 at a concrete well-formed IR. -/
theorem round_trip_canonical_witness :
    c1_good.validation.schema_version = "0.1.0" ∧
    (c1_good.nodes.map Node.id).Nodup ∧
    dict_to_ir (to_json_dict c1_good true) = .ok (canonIR c1_good) ∧
    to_json_dict (canonIR c1_good) true = to_json_dict c1_good true :=
  ⟨rfl, by decide,
    (round_trip_canonical c1_good rfl rfl rfl (by decide) (by decide) (by decide)
      (by decide) (by decide)).1,
    (round_trip_canonical c1_good rfl rfl rfl (by decide) (by decide) (by decide)
      (by decide) (by decide)).2⟩

/-! ## Claim C5: bounding-box center -/

/-- C5: the claim states that the derived center is the per-axis midpoint of
min and max on all three axes.  The code disagrees on the z axis: it computes
`(min_z + min_z) / 2`, i.e. always `min_z`.  This theorem evaluates the code:
the z component equals `min_z` for every box, and on the box
`(0,0,0)-(2,3,4)` the code yields center `(1, 3/2, 0)` where the claimed
midpoint of the z axis is `2`. -/
theorem center_z_component_is_min_z :
    (∀ b : BoundingBox, b.center.2.2 = b.min_z) ∧
    BoundingBox.center ⟨0, 0, 0, 2, 3, 4⟩ = (1, 3/2, 0) ∧
    (BoundingBox.center ⟨0, 0, 0, 2, 3, 4⟩).2.2 ≠ (0 + 4) / 2 := by
  refine ⟨fun b => ?_, ?_, ?_⟩
  · show (b.min_z + b.min_z) / 2 = b.min_z
    ring
  · simp only [BoundingBox.center, Prod.mk.injEq]
    norm_num
  · simp only [BoundingBox.center]
    norm_num

/-! ## Claim C8: self-loop rejection -/

/-- C8: constructing an `Edge` with `src = dst` (both non-empty) always fails
with the `SelfLoop` error, for every edge type and attribute payload. -/
theorem mkEdge_self_loop_rejected (s type : String) (attrs : List (String × Json))
    (h : s ≠ "") : mkEdge s s type attrs = .error .SelfLoop := by
  simp [mkEdge, h]

/-- Witness for C8 at `src = dst = "n1"`, type `"contains"`. -/
theorem mkEdge_self_loop_rejected_witness :
    "n1" ≠ "" ∧ mkEdge "n1" "n1" "contains" [] = .error .SelfLoop :=
  ⟨by decide, mkEdge_self_loop_rejected "n1" "contains" [] (by decide)⟩

/-! ## Claim C9: mutation atomicity of `add_edge` -/

/-- C9: `add_edge` with an absent source id fails with `UnknownSourceNode`;
with a present source and absent destination it fails with
`UnknownDestinationNode`; when both endpoints exist the edge is appended and
`edge_count` updated.  In the error cases the function returns no new IR
(modelling the raise before any mutation: the caller's `ir`, its `edges`
sequence and its `validation.edge_count` are untouched). -/
theorem add_edge_mutation_atomicity (ir : IR) (e : Edge) :
    (e.src ∉ ir.nodes.map Node.id →
      ir.add_edge e = .error (.UnknownSourceNode e.src)) ∧
    (e.src ∈ ir.nodes.map Node.id → e.dst ∉ ir.nodes.map Node.id →
      ir.add_edge e = .error (.UnknownDestinationNode e.dst)) ∧
    (e.src ∈ ir.nodes.map Node.id → e.dst ∈ ir.nodes.map Node.id →
      ir.add_edge e = .ok { ir with
        edges := ir.edges ++ [e],
        validation := { ir.validation with edge_count := ir.edges.length + 1 } }) := by
  refine ⟨fun hs => ?_, fun hs hd => ?_, fun hs hd => ?_⟩
  · simp [IR.add_edge, hs]
  · simp [IR.add_edge, hs, hd]
  · simp [IR.add_edge, hs, hd]

/-- Witness for C9: on an IR containing only node `"n1"`, adding
`{src: "n1", dst: "ghost", type: "contains"}` fails with
`UnknownDestinationNode`, and adding `{src: "ghost", dst: "n1"}` fails with
`UnknownSourceNode`. -/
theorem add_edge_mutation_atomicity_witness :
    "n1" ∈ (mkIR "m" [mkNode "n1" "Part" []] [] [] [] {} none).nodes.map Node.id ∧
    "ghost" ∉ (mkIR "m" [mkNode "n1" "Part" []] [] [] [] {} none).nodes.map Node.id ∧
    (mkIR "m" [mkNode "n1" "Part" []] [] [] [] {} none).add_edge
        ⟨"n1", "ghost", "contains", []⟩ =
      .error (.UnknownDestinationNode "ghost") ∧
    (mkIR "m" [mkNode "n1" "Part" []] [] [] [] {} none).add_edge
        ⟨"ghost", "n1", "contains", []⟩ =
      .error (.UnknownSourceNode "ghost") :=
  ⟨by decide, by decide,
    (add_edge_mutation_atomicity (mkIR "m" [mkNode "n1" "Part" []] [] [] [] {} none)
      ⟨"n1", "ghost", "contains", []⟩).2.1 (by decide) (by decide),
    (add_edge_mutation_atomicity (mkIR "m" [mkNode "n1" "Part" []] [] [] [] {} none)
      ⟨"ghost", "n1", "contains", []⟩).1 (by decide)⟩

/-! ## Claim C10: a capacity of zero is never enforced -/

/-- C10: with `max_models = 0`, `cleanup_old_models` removes nothing (the
slice `sorted_models[:-0]` is empty), so the zero capacity is never enforced
and the store grows by one on every load of a fresh model id. -/
theorem max_models_zero_store_grows (s : ShapeBridgeSession) (h : s.max_models = 0) :
    s.cleanup_old_models = s ∧
    ∀ (m : LoadedModel) (t : Nat), s.has_model m.model_id = false →
      (s.load_model_store m t).models.length = s.models.length + 1 := by
  refine ⟨cleanup_old_models_max_zero s h, fun m t hfresh => ?_⟩
  have hfresh' : s.models.any (fun p => p.1 = m.model_id) = false := hfresh
  unfold ShapeBridgeSession.load_model_store
  rw [cleanup_old_models_max_zero
    { s with models := dictSet s.models m.model_id m,
             load_times := dictSet s.load_times m.model_id t } h]
  simp [dictSet, hfresh']

/-- Witness for C10: starting from an empty session with `max_models = 0`,
loading `"a"` grows the store to one entry. -/
theorem max_models_zero_store_grows_witness :
    (ShapeBridgeSession.init 0).max_models = 0 ∧
    (ShapeBridgeSession.init 0).has_model "a" = false ∧
    ((ShapeBridgeSession.init 0).load_model_store ⟨"a"⟩ 0).models.length =
      (ShapeBridgeSession.init 0).models.length + 1 :=
  ⟨rfl, rfl,
    (max_models_zero_store_grows (ShapeBridgeSession.init 0) rfl).2 ⟨"a"⟩ 0 rfl⟩

end ShapeBridge
